import Mathlib

/-!
# Hubble root command: configuration resolution

A shallow embedding of `cmd/root.go` (`New`, `Execute`, `newViper`).  The file is
glue code over its libraries, so the embedding has two layers:

* the calls `root.go` makes into `os`, `path/filepath`, `fmt`, `spf13/pflag`,
  `spf13/viper` and `spf13/cobra`, each as a pure function on explicit state
  (a pointer receiver becomes a record passed in and out);
* `newViper`, `New`, the initialization hook and `Execute`, line by line over
  that layer.

The sibling packages `pkg` and `pkg/defaults` only supply three constants; they
are a parameter (`Pkg`).
-/

set_option autoImplicit false

namespace Hubble

/-! ## Values and casts -/

/-- A value as the Config Store holds it (an `interface{}` in Go): the scalars
a flag, an environment variable or a YAML document can produce here.  `null`
is the YAML null (`key:` or `key: ~`), which decodes to Go's `nil`. -/
inductive Value where
  | str (s : String)
  | bool (b : Bool)
  | int (i : Int)
  | null
  deriving DecidableEq, Repr

/-- The writers the process starts with (`os.Stdout`, `os.Stderr`). -/
inductive Writer where
  | Stdout
  | Stderr
  deriving DecidableEq, Repr

/-- Failures of `viper.ReadInConfig`. -/
inductive Error where
  | ConfigFileNotFound
  | UnsupportedConfig
  | ReadFile
  | Parse
  deriving DecidableEq, Repr

/-- What unmarshalling a file gives: the top-level mapping (keys lower-cased,
as viper stores them; a key whose value is null is kept, with `Value.null`),
or a parse failure. -/
inductive FileBody where
  | yaml (kv : List (String × Value))
  | malformed
  deriving DecidableEq, Repr

/-- The part of the operating system `root.go` and viper look at. -/
structure OS where
  /-- Result of `os.Getwd` (used by `filepath.Abs`); the empty string when it
  returns an error. -/
  Getwd : String
  /-- Result of `os.UserConfigDir`; `none` when it returns an error. -/
  UserConfigDir : Option String
  /-- Result of `os.UserHomeDir`; `none` when it returns an error. -/
  UserHomeDir : Option String
  /-- Result of `os.LookupEnv`; `none` when the variable is not set. -/
  LookupEnv : String → Option String
  /-- Files by path, each as the YAML decoder reads it; `none` when there is no
  file at the path. -/
  ReadFile : String → Option FileBody
  /-- What the decoder of another format (first argument: `json`, `toml`, ...)
  makes of the file at a path. -/
  Unmarshal : String → String → FileBody

/-- Go `os.Getenv`: the value of the variable, empty when it is not set. -/
def OS.Getenv (os : OS) (key : String) : String := (os.LookupEnv key).getD ""

/-- Upper-case an ASCII letter. -/
def upperChar (c : Char) : Char :=
  if 97 ≤ c.toNat ∧ c.toNat ≤ 122 then Char.ofNat (c.toNat - 32) else c

/-- Lower-case an ASCII letter. -/
def lowerChar (c : Char) : Char :=
  if 65 ≤ c.toNat ∧ c.toNat ≤ 90 then Char.ofNat (c.toNat + 32) else c

namespace strings

/-- Go `strings.ToUpper` (on ASCII text). -/
def ToUpper (s : String) : String := ⟨s.data.map upperChar⟩

/-- Go `strings.ToLower` (on ASCII text). -/
def ToLower (s : String) : String := ⟨s.data.map lowerChar⟩

end strings

namespace strconv

/-- Go `strconv.ParseBool`; `none` is the syntax error. -/
def ParseBool (s : String) : Option Bool :=
  if s ∈ ["1", "t", "T", "TRUE", "true", "True"] then some true
  else if s ∈ ["0", "f", "F", "FALSE", "false", "False"] then some false
  else none

end strconv

namespace cast

/-- The `spf13/cast` conversion `ToBool`, as viper's `GetBool` applies it to the
result of `Get` (`none` is Go's `nil`; a conversion error gives `false`).  A
YAML integer is a Go `int` only within 64 bits; beyond that it decodes to a
type `ToBool` does not convert. -/
def ToBool : Option Value → Bool
  | some (.bool b) => b
  | some (.str s) => (strconv.ParseBool s).getD false
  | some (.int i) => decide (-(2 ^ 63 : Int) ≤ i ∧ i < 2 ^ 63) && i != 0
  | some .null => false
  | none => false

/-- The `spf13/cast` conversion `ToString`, as viper's `GetString` applies it. -/
def ToString : Option Value → String
  | some (.str s) => s
  | some (.bool b) => if b then "true" else "false"
  | some (.int i) => toString i
  | some .null => ""
  | none => ""

end cast

namespace filepath

/-- Go `filepath.IsAbs` on a Unix path. -/
def IsAbs (p : String) : Bool := p.data.head? == some '/'

/-- The elements of a path between its separators. -/
def splitSlash : List Char → List (List Char)
  | [] => [[]]
  | c :: cs =>
    if c = '/' then [] :: splitSlash cs
    else
      match splitSlash cs with
      | [] => [[c]]
      | x :: xs => (c :: x) :: xs

/-- Path elements put together with one separator between them. -/
def joinSlash : List (List Char) → List Char
  | [] => []
  | [x] => x
  | x :: y :: rest => x ++ '/' :: joinSlash (y :: rest)

/-- One step of `filepath.Clean` over the elements kept so far (the last one
first): an empty element and `.` are dropped; `..` removes the element before
it, or is dropped at the root, or is kept in front of a relative path. -/
def cleanStep (rooted : Bool) (kept : List (List Char)) (elem : List Char) : List (List Char) :=
  if elem = [] ∨ elem = ['.'] then kept
  else if elem = ['.', '.'] then
    match kept with
    | [] => if rooted then [] else [elem]
    | top :: rest => if top = ['.', '.'] then elem :: kept else rest
  else elem :: kept

/-- Go `filepath.Clean` on the characters of a Unix path. -/
def cleanChars (path : List Char) : List Char :=
  if path = [] then ['.']
  else
    let rooted := path.head? == some '/'
    let body := joinSlash ((splitSlash path).foldl (cleanStep rooted) []).reverse
    if rooted then '/' :: body
    else if body = [] then ['.'] else body

/-- Go `filepath.Clean` on a Unix path. -/
def Clean (path : String) : String := ⟨cleanChars path.data⟩

/-- Go `filepath.Join` of a directory and one element: empty arguments are
ignored, the rest is joined with a separator and cleaned. -/
def Join (dir elem : String) : String :=
  if dir = "" then (if elem = "" then "" else Clean elem)
  else if elem = "" then Clean dir
  else Clean (dir ++ "/" ++ elem)

/-- Go `filepath.Abs` on a Unix path: an absolute path is cleaned, any other
path is joined under the working directory; `none` is the error when the
working directory cannot be found. -/
def Abs (os : OS) (p : String) : Option String :=
  if IsAbs p then some (Clean p)
  else if os.Getwd = "" then none
  else some (Join os.Getwd p)

/-- An element `filepath.Clean` keeps: not empty, not `.`, without separator. -/
def GoodElem (c : List Char) : Prop := c ≠ [] ∧ c ≠ ['.'] ∧ '/' ∉ c

/-- The shape of the elements kept by `filepath.Clean` (last one first): every
`..` lies below every other element, and there is none in a rooted path. -/
def KeptInv (rooted : Bool) (kept : List (List Char)) : Prop :=
  (∀ c ∈ kept, GoodElem c) ∧
  ∃ k front, kept = front ++ List.replicate k ['.', '.'] ∧ ['.', '.'] ∉ front ∧
    (rooted = true → k = 0)

end filepath

namespace fmt

/-- Go `fmt.Sprintln` on strings: operands separated by one space, newline at
the end. -/
def Sprintln (operands : List String) : String :=
  " ".intercalate operands ++ "\n"

end fmt

/-! ## pflag -/

namespace pflag

/-- A `pflag.Flag`, with the accessors viper reads it through. -/
structure Flag where
  Name : String
  Shorthand : String
  Usage : String
  /-- Result of `Value.Type()`. -/
  ValueType : String
  /-- Result of `Value.String()`: the current value. -/
  ValueString : String
  DefValue : String
  /-- The field `Changed`: the flag was set while parsing the command line. -/
  HasChanged : Bool
  deriving DecidableEq, Repr

/-- A `pflag.FlagSet`: the flags in declaration order. -/
abbrev FlagSet := List Flag

/-- The call `FlagSet.String(name, value, usage)`. -/
def StringFlag (fs : FlagSet) (name value usage : String) : FlagSet :=
  fs ++ [⟨name, "", usage, "string", value, value, false⟩]

/-- The call `FlagSet.BoolP(name, shorthand, value, usage)`. -/
def BoolP (fs : FlagSet) (name shorthand : String) (value : Bool) (usage : String) : FlagSet :=
  fs ++ [⟨name, shorthand, usage, "bool", cast.ToString (some (.bool value)),
    cast.ToString (some (.bool value)), false⟩]

/-- The call `FlagSet.Duration(name, value, usage)`; the duration is carried in
the text form `time.Duration.String` gives it. -/
def Duration (fs : FlagSet) (name value usage : String) : FlagSet :=
  fs ++ [⟨name, "", usage, "duration", value, value, false⟩]

/-- The function `FlagSet.Lookup`. -/
def Lookup (fs : FlagSet) (name : String) : Option Flag :=
  fs.find? (fun f => f.Name == name)

/-- A parsed command line: for each flag name, the value the flag was given
(in the text form its `Value.String()` then returns), or `none` when the flag
does not occur. -/
abbrev CommandLine := String → Option String

/-- The effect of `FlagSet.Parse` on the flags: `Set` on every flag that occurs
stores the value and marks the flag as changed; the others keep their
default. -/
def Parse (fs : FlagSet) (cli : CommandLine) : FlagSet :=
  fs.map fun f =>
    match cli f.Name with
    | some v => { f with ValueString := v, HasChanged := true }
    | none => f

end pflag

/-! ## viper -/

/-- The fields of a `viper.Viper` this program sets or reads.  The maps
`override`, `kvstore`, `defaults`, `aliases` and `env` stay empty throughout
(`Set`, `SetDefault`, `RegisterAlias` and `BindEnv` are never called) and are
left out.  `pflags` maps a key to the name of the bound flag; the flag itself
lives in the command's flag set, which viper reaches through the pointer. -/
structure Viper where
  configName : String
  configType : String
  configPaths : List String
  configFile : String
  envPrefix : String
  automaticEnvApplied : Bool
  allowEmptyEnv : Bool
  config : List (String × Value)
  pflags : List (String × String)
  deriving DecidableEq, Repr

namespace viper

/-- The package variable `viper.SupportedExts`. -/
def SupportedExts : List String :=
  ["json", "toml", "yaml", "yml", "properties", "props", "prop", "hcl", "dotenv", "env", "ini"]

/-- The function `viper.New()`. -/
def New : Viper :=
  { configName := "config", configType := "", configPaths := [], configFile := "",
    envPrefix := "", automaticEnvApplied := false, allowEmptyEnv := false,
    config := [], pflags := [] }

/-- The function `SetConfigName`. -/
def SetConfigName (v : Viper) (name : String) : Viper :=
  if name ≠ "" then { v with configName := name, configFile := "" } else v

/-- The function `SetConfigType`. -/
def SetConfigType (v : Viper) (typ : String) : Viper :=
  if typ ≠ "" then { v with configType := typ } else v

/-- The function `userHomeDir` of viper (not `os.UserHomeDir`): the value of the
variable `HOME`. -/
def userHomeDir (os : OS) : String := os.Getenv "HOME"

/-- The function `absPathify`: a leading `$HOME` is replaced by the home
directory, any other leading `$NAME` by the value of the variable `NAME`; an
absolute path is then cleaned, any other path made absolute and cleaned; when
that fails (an error is logged and) the result is empty. -/
def absPathify (os : OS) (inPath : String) : String :=
  let inPath :=
    if inPath = "$HOME" ∨ "$HOME/".data.isPrefixOf inPath.data = true then
      userHomeDir os ++ ⟨inPath.data.drop 5⟩
    else inPath
  let inPath :=
    if "$".data.isPrefixOf inPath.data = true then
      os.Getenv ⟨(inPath.data.drop 1).takeWhile (fun c => c != '/')⟩
        ++ ⟨(inPath.data.drop 1).dropWhile (fun c => c != '/')⟩
    else inPath
  if filepath.IsAbs inPath then filepath.Clean inPath
  else
    match filepath.Abs os inPath with
    | some p => filepath.Clean p
    | none => ""

/-- The function `AddConfigPath`: a non-empty path is made absolute by `absPathify`
and appended unless it is already in the list. -/
def AddConfigPath (v : Viper) (os : OS) (path : String) : Viper :=
  if path ≠ "" then
    let absin := absPathify os path
    if absin ∈ v.configPaths then v else { v with configPaths := v.configPaths ++ [absin] }
  else v

/-- The function `SetEnvPrefix`. -/
def SetEnvPrefix (v : Viper) (pfx : String) : Viper :=
  if pfx ≠ "" then { v with envPrefix := pfx } else v

/-- The function `AutomaticEnv`. -/
def AutomaticEnv (v : Viper) : Viper :=
  { v with automaticEnvApplied := true }

/-- The function `BindPFlags`: every flag of the set is bound under its lower-cased name. -/
def BindPFlags (v : Viper) (flags : pflag.FlagSet) : Viper :=
  flags.foldl (fun v f => { v with pflags := (strings.ToLower f.Name, f.Name) :: v.pflags }) v

/-- The function `SetConfigFile`: a non-empty path is stored as given, without
being made absolute. -/
def SetConfigFile (v : Viper) (path : String) : Viper :=
  if path ≠ "" then { v with configFile := path } else v

/-- The function `ConfigFileUsed`. -/
def ConfigFileUsed (v : Viper) : String := v.configFile

/-- The function `mergeWithEnvPrefix`: the name of the environment variable for a key. -/
def mergeWithEnvPrefix (v : Viper) (key : String) : String :=
  if v.envPrefix ≠ "" then strings.ToUpper (v.envPrefix ++ "_" ++ key)
  else strings.ToUpper key

/-- The function `getEnv`, which returns `val, ok && (v.allowEmptyEnv || val != "")`
for `val, ok := os.LookupEnv(key)`: a variable that is set to the empty string
counts as not set unless `AllowEmptyEnv(true)` was called, which `root.go`
never does. -/
def getEnv (v : Viper) (os : OS) (key : String) : Option String :=
  match os.LookupEnv key with
  | some val => if v.allowEmptyEnv || val != "" then some val else none
  | none => none

/-- The value viper reads off a bound flag: a `bool` flag is converted with
`cast.ToBool`, a `string` or `duration` flag is taken as `ValueString()`. -/
def flagValue (f : pflag.Flag) : Value :=
  if f.ValueType = "bool" then .bool (cast.ToBool (some (.str f.ValueString)))
  else .str f.ValueString

/-- The flag bound under a key, read through the flag set of the command. -/
def boundFlag (v : Viper) (flags : pflag.FlagSet) (lcaseKey : String) : Option pflag.Flag :=
  (v.pflags.lookup lcaseKey).bind (pflag.Lookup flags)

/-- The function `find` for a key without the key delimiter: a changed flag, then the
environment (with `AutomaticEnv`), then the config file when the value found
there is not `nil` (`if val != nil`), then, with `flagDefault`, the value of
the bound flag. -/
def find (v : Viper) (flags : pflag.FlagSet) (os : OS) (lcaseKey : String)
    (flagDefault : Bool) : Option Value :=
  match (boundFlag v flags lcaseKey).filter (fun f => f.HasChanged) with
  | some f => some (flagValue f)
  | none =>
    match (if v.automaticEnvApplied then getEnv v os (mergeWithEnvPrefix v lcaseKey) else none) with
    | some val => some (.str val)
    | none =>
      match (v.config.lookup lcaseKey).filter (fun val => val != .null) with
      | some val => some val
      | none =>
        if flagDefault then (boundFlag v flags lcaseKey).map flagValue else none

/-- The function `Get`. -/
def Get (v : Viper) (flags : pflag.FlagSet) (os : OS) (key : String) : Option Value :=
  find v flags os (strings.ToLower key) true

/-- The function `GetString`. -/
def GetString (v : Viper) (flags : pflag.FlagSet) (os : OS) (key : String) : String :=
  cast.ToString (Get v flags os key)

/-- The function `GetBool`. -/
def GetBool (v : Viper) (flags : pflag.FlagSet) (os : OS) (key : String) : Bool :=
  cast.ToBool (Get v flags os key)

/-- The function `searchInPath`: the first `<dir>/<configName>.<ext>` that exists, over
`SupportedExts` in order; failing that, with a config type set, the file
`<dir>/<configName>`; `""` when there is none. -/
def searchInPath (v : Viper) (os : OS) (dir : String) : String :=
  match SupportedExts.find? (fun ext =>
      (os.ReadFile (filepath.Join dir (v.configName ++ "." ++ ext))).isSome) with
  | some ext => filepath.Join dir (v.configName ++ "." ++ ext)
  | none =>
    if v.configType ≠ "" ∧ (os.ReadFile (filepath.Join dir v.configName)).isSome then
      filepath.Join dir v.configName
    else ""

/-- The function `findConfigFile`: the hit of the first config path that has one. -/
def findConfigFile (v : Viper) (os : OS) : Except Error String :=
  match (v.configPaths.map (searchInPath v os)).find? (fun file => file != "") with
  | some file => .ok file
  | none => .error .ConfigFileNotFound

/-- The function `getConfigFile`: the explicit file when one is set, else the result of the
search, which is then remembered in `configFile`. -/
def getConfigFile (v : Viper) (os : OS) : Viper × Except Error String :=
  if v.configFile = "" then
    match findConfigFile v os with
    | .ok cf => ({ v with configFile := cf }, .ok cf)
    | .error e => (v, .error e)
  else (v, .ok v.configFile)

/-- The extension of a file name without the dot (`filepath.Ext`), `""` when
the last path element has no dot. -/
def ext (path : String) : String :=
  let base := (path.data.reverse.takeWhile (fun c => c != '/')).reverse
  if '.' ∈ base then ⟨(base.reverse.takeWhile (fun c => c != '.')).reverse⟩ else ""

/-- The function `getConfigType`. -/
def getConfigType (v : Viper) : String :=
  if v.configType ≠ "" then v.configType else ext v.configFile

/-- The function `unmarshalReader`: the decoder is chosen by the config type,
not by the name of the file; the argument `asYaml` is the file as the YAML
decoder reads it. -/
def unmarshalReader (v : Viper) (os : OS) (filename : String) (asYaml : FileBody) : FileBody :=
  if strings.ToLower (getConfigType v) ∈ ["yaml", "yml"] then asYaml
  else os.Unmarshal (strings.ToLower (getConfigType v)) filename

/-- The function `ReadInConfig`: locate the file, read it, unmarshal it into a fresh map and
only then install the map; every failure returns before `config` is touched.
The second component is the returned `error` (`none` for `nil`). -/
def ReadInConfig (v : Viper) (os : OS) : Viper × Option Error :=
  match getConfigFile v os with
  | (v, .error e) => (v, some e)
  | (v, .ok filename) =>
    if getConfigType v ∉ SupportedExts then (v, some .UnsupportedConfig)
    else
      match (os.ReadFile filename).map (unmarshalReader v os filename) with
      | none => (v, some .ReadFile)
      | some .malformed => (v, some .Parse)
      | some (.yaml kv) => ({ v with config := kv }, none)

end viper

/-! ## cobra -/

/-- The constants `root.go` takes from the sibling packages `pkg` and
`pkg/defaults`, which are not part of this file. -/
structure Pkg where
  /-- The constant `pkg.Version`. -/
  Version : String
  /-- Result of `defaults.GetDefaultSocketPath()`. -/
  DefaultSocketPath : String
  /-- The constant `defaults.DefaultDialTimeout`, in the text form of
  `time.Duration.String`. -/
  DefaultDialTimeout : String

/-- An argument of a subcommand constructor call. -/
inductive Arg where
  /-- The pointer `vp` to the Config Store made by `newViper`. -/
  | vp
  deriving DecidableEq, Repr

/-- A child of the root command, as `New` builds it: the call `<pkg>.New(args)`.
The subcommand packages are not part of this file; a child is identified by
the package that constructs it. -/
structure Child where
  pkg : String
  args : List Arg
  deriving DecidableEq, Repr

/-- The fields of the root `cobra.Command` that `New` sets or reads. -/
structure Command where
  Use : String
  Short : String
  Long : String
  SilenceErrors : Bool
  SilenceUsage : Bool
  Version : String
  /-- The persistent flag set (`PersistentFlags()`). -/
  pflags : pflag.FlagSet
  /-- Set by `SetOut`; `none` is the nil writer. -/
  outWriter : Option Writer
  /-- Set by `SetErr`; `none` is the nil writer. -/
  errWriter : Option Writer
  /-- Set by `SetVersionTemplate`: the template as the function from the
  fields `.Name` and `.Version` to the rendered text; `none` when unset. -/
  versionTemplate : Option (String → String → String)
  /-- Children in the order `AddCommand` received them. -/
  commands : List Child

namespace cobra

/-- The function `Command.OutOrStdout` on a command without a parent. -/
def OutOrStdout (c : Command) : Writer := c.outWriter.getD .Stdout

/-- The function `Command.ErrOrStderr` on a command without a parent. -/
def ErrOrStderr (c : Command) : Writer := c.errWriter.getD .Stderr

/-- The function `Command.SetErr`. -/
def SetErr (c : Command) (w : Writer) : Command := { c with errWriter := some w }

/-- The function `Command.SetVersionTemplate`. -/
def SetVersionTemplate (c : Command) (t : String → String → String) : Command :=
  { c with versionTemplate := some t }

/-- The function `Command.AddCommand`. -/
def AddCommand (c : Command) (cmds : List Child) : Command :=
  { c with commands := c.commands ++ cmds }

/-- The function `Command.Name`: the first word of `Use`. -/
def Name (c : Command) : String :=
  ⟨c.Use.data.takeWhile (fun ch => ch != ' ')⟩

end cobra

namespace template

/-- The action `with` of `text/template` on a string pipeline: the body runs,
with dot set to the value, only when the value is not empty. -/
def With (value : String) (body : String → String) : String :=
  if value = "" then "" else body value

/-- The call `printf` with a format that is one `%s` between two literal
texts. -/
def printf (before after arg : String) : String := before ++ arg ++ after

end template

/-! ## root.go -/

/-- The version template of line 64,
`{{with .Name}}{{printf "%s " .}}{{end}}{{printf "v%s" .Version}}\n`,
as a function of the fields `.Name` and `.Version`. -/
def versionTemplate (Name Version : String) : String :=
  template.With Name (fun dot => template.printf "" " " dot)
    ++ template.printf "v" "" Version ++ "\n"

/-- The function `newViper` of `root.go`. -/
def newViper (os : OS) : Viper :=
  let vp := viper.New
  let vp := viper.SetConfigName vp "config"
  let vp := viper.SetConfigType vp "yaml"
  let vp := viper.AddConfigPath vp os "."
  let vp := match os.UserConfigDir with
    | some dir => viper.AddConfigPath vp os (filepath.Join dir "hubble")
    | none => vp
  let vp := match os.UserHomeDir with
    | some dir => viper.AddConfigPath vp os (filepath.Join dir ".hubble")
    | none => vp
  let vp := viper.SetEnvPrefix vp "hubble"
  viper.AutomaticEnv vp

/-- The program state `New` builds and the hook works on: the Config Store
behind the pointer `vp`, the root command, and what has been written so far
(writer and text, oldest first). -/
structure App where
  vp : Viper
  rootCmd : Command
  written : List (Writer × String)

/-- The function registered with `cobra.OnInitialize` in `New` (lines 46-54). -/
def onInitialize (os : OS) (a : App) : App :=
  let cfg := viper.GetString a.vp a.rootCmd.pflags os "config"
  let vp := if cfg ≠ "" then viper.SetConfigFile a.vp cfg else a.vp
  let (vp, err) := viper.ReadInConfig vp os
  if err = none ∧ viper.GetBool vp a.rootCmd.pflags os "debug" = true then
    { a with
      vp := vp
      written := a.written ++
        [(cobra.ErrOrStderr a.rootCmd,
          fmt.Sprintln ["Using config file:", viper.ConfigFileUsed vp])] }
  else { a with vp := vp }

/-- The persistent flags `New` declares (lines 56-60), on the empty flag set of
a fresh command. -/
def New.flags (pkg : Pkg) : pflag.FlagSet :=
  let flags : pflag.FlagSet := []
  let flags := pflag.StringFlag flags "config" "" "Config file (default is $HOME/.hubble.yaml)"
  let flags := pflag.BoolP flags "debug" "D" false "Enable debug messages"
  let flags := pflag.StringFlag flags "server" pkg.DefaultSocketPath "Address of a Hubble server"
  let flags := pflag.Duration flags "timeout" pkg.DefaultDialTimeout "Hubble server dialing timeout"
  flags

/-- The function `New` of `root.go`; the hook it registers is `onInitialize`. -/
def New (pkg : Pkg) (os : OS) : App :=
  let vp := newViper os
  let rootCmd : Command :=
    { Use := "hubble"
      Short := "CLI"
      Long := "Hubble is a utility to observe and inspect recent Cilium routed traffic in a cluster."
      SilenceErrors := true
      SilenceUsage := true
      Version := pkg.Version
      pflags := []
      outWriter := none
      errWriter := none
      versionTemplate := none
      commands := [] }
  let flags := New.flags pkg
  let rootCmd := { rootCmd with pflags := flags }
  let vp := viper.BindPFlags vp flags
  let rootCmd := cobra.SetErr rootCmd .Stderr
  let rootCmd := cobra.SetVersionTemplate rootCmd versionTemplate
  let rootCmd := cobra.AddCommand rootCmd
    [ ⟨"completion", []⟩,
      ⟨"observe", [.vp]⟩,
      ⟨"peer", [.vp]⟩,
      ⟨"status", [.vp]⟩,
      ⟨"version", []⟩ ]
  { vp := vp, rootCmd := rootCmd, written := [] }

/-- The step of `Command.Execute` that parses the command line into the
persistent flags. -/
def ParseFlags (cli : pflag.CommandLine) (a : App) : App :=
  { a with rootCmd := { a.rootCmd with pflags := pflag.Parse a.rootCmd.pflags cli } }

/-- The function `Execute` of `root.go`, up to the point where cobra hands over
to the selected subcommand: the command is built, the command line is parsed,
then the initialization hook runs. -/
def Execute (pkg : Pkg) (os : OS) (cli : pflag.CommandLine) : App :=
  onInitialize os (ParseFlags cli (New pkg os))

/-- A lookup `vp.Get(key)` in a state of the program. -/
def App.Get (a : App) (os : OS) (key : String) : Option Value :=
  viper.Get a.vp a.rootCmd.pflags os key

/-- The names of the global settings, in the order `New` declares the flags. -/
def settings : List String := ["config", "debug", "server", "timeout"]

/-! ## Sources of a setting and candidate directories -/

/-- The precedence rule of the spec, over the sources listed from the highest
priority down: the first source that defines a value gives the result. -/
def highestPresent (sources : List (Option Value)) : Option Value :=
  sources.findSome? id

/-- The environment variable of a setting as the spec names it: the product
prefix, an underscore, the setting name in upper case. -/
def envVar (name : String) : String := "HUBBLE_" ++ strings.ToUpper name

/-- The built-in default of a setting: what the flag `New` declares for it
carries when the command line leaves it alone. -/
def builtinDefault (pkg : Pkg) (name : String) : Option Value :=
  (pflag.Lookup (New.flags pkg) name).map viper.flagValue

/-- The flag source of a setting: what the flag `New` declares for it carries
once the command line has given it the text `s`; `none` when the command line
does not pass the flag. -/
def flagSource (pkg : Pkg) (cli : pflag.CommandLine) (name : String) : Option Value :=
  (cli name).bind fun s =>
    (pflag.Lookup (New.flags pkg) name).map fun f =>
      viper.flagValue { f with ValueString := s, HasChanged := true }

/-- The environment source of a setting, every variable that is set counting
as a value. -/
def envSourceIfSet (os : OS) (name : String) : Option Value :=
  (os.LookupEnv (envVar name)).map .str

/-- The environment source of a setting, a variable counting as a value only
when it is set to something other than the empty string. -/
def envSource (os : OS) (name : String) : Option Value :=
  ((os.LookupEnv (envVar name)).filter (fun val => val != "")).map .str

/-- The config-file source of a setting in a state of the program, every key
the loaded document defines counting as a value. -/
def fileSourceIfDefined (a : App) (name : String) : Option Value :=
  a.vp.config.lookup name

/-- The config-file source of a setting in a state of the program, a key
counting as a value only when the loaded document gives it a value other than
null. -/
def fileSource (a : App) (name : String) : Option Value :=
  (a.vp.config.lookup name).filter (fun val => val != .null)

/-- The candidate directories in the order `newViper` hands them to
`AddConfigPath` (lines 88-94), each as `absPathify` makes it absolute: `.`,
then `hubble` under the user-config directory when that resolves, then
`.hubble` under the home directory when that resolves. -/
def candidateDirs (os : OS) : List String :=
  [viper.absPathify os "."]
    ++ (os.UserConfigDir.map fun dir =>
        viper.absPathify os (filepath.Join dir "hubble")).toList
    ++ (os.UserHomeDir.map fun dir =>
        viper.absPathify os (filepath.Join dir ".hubble")).toList

/-- The candidate list `newViper` builds: the candidate directories with a
directory that is already present not added again. -/
def addedPaths (os : OS) : List String :=
  (candidateDirs os).foldl (fun acc d => if d ∈ acc then acc else acc ++ [d]) []

/-- The search of `findConfigFile` over a list of directories: the hit of
`searchInPath` in the first directory that has one. -/
def firstConfigFile (os : OS) (dirs : List String) : Option String :=
  (dirs.map (viper.searchInPath (newViper os) os)).find? (fun file => file != "")

/-- An operating system that differs only in having no files at all. -/
def OS.withoutFiles (os : OS) : OS := { os with ReadFile := fun _ => none }

/-! ## Concrete inputs -/

/-- Constants as the `hubble` packages define them. -/
def pkg0 : Pkg :=
  { Version := "1.2.3"
    DefaultSocketPath := "unix:///var/run/cilium/hubble.sock"
    DefaultDialTimeout := "5s" }

/-- A machine with home and user-config directories, no variables set and no
files. -/
def bare : OS :=
  { Getwd := "/work"
    UserConfigDir := some "/home/u/.config"
    UserHomeDir := some "/home/u"
    LookupEnv := fun _ => none
    ReadFile := fun _ => none
    Unmarshal := fun _ _ => .malformed }

/-- The empty command line. -/
def noFlags : pflag.CommandLine := fun _ => none

/-- The machine `bare` with a `config.yaml` under `~/.hubble` that holds
`debug: true`. -/
def homeDebugFile : OS :=
  { bare with
    ReadFile := fun path =>
      if path = "/home/u/.hubble/config.yaml" then some (.yaml [("debug", .bool true)])
      else none }

/-- The value `cfg` the hook reads on its first line: the `config` setting once
the command line is parsed and before any file is loaded. -/
def configSetting (pkg : Pkg) (os : OS) (cli : pflag.CommandLine) : String :=
  viper.GetString (ParseFlags cli (New pkg os)).vp (ParseFlags cli (New pkg os)).rootCmd.pflags
    os "config"

/-! ## Stores, sources and machines used in the statements -/

/-- The load the hook performs: `SetConfigFile` when the `config` setting is
not empty, then `ReadInConfig`. -/
def hookLoad (os : OS) (a : App) : Viper × Option Error :=
  viper.ReadInConfig
    (if viper.GetString a.vp a.rootCmd.pflags os "config" ≠ "" then
      viper.SetConfigFile a.vp (viper.GetString a.vp a.rootCmd.pflags os "config")
     else a.vp) os

/-- The three sources a store is loaded with besides the built-in defaults. -/
inductive Source where
  | env
  | flags
  | file
  deriving DecidableEq, Repr

/-- The part of `newViper` that sets up the config-file search (lines 83-94),
before the environment is switched on. -/
def configSetup (os : OS) : Viper :=
  let vp := viper.New
  let vp := viper.SetConfigName vp "config"
  let vp := viper.SetConfigType vp "yaml"
  let vp := viper.AddConfigPath vp os "."
  let vp := match os.UserConfigDir with
    | some dir => viper.AddConfigPath vp os (filepath.Join dir "hubble")
    | none => vp
  match os.UserHomeDir with
  | some dir => viper.AddConfigPath vp os (filepath.Join dir ".hubble")
  | none => vp

/-- Loading one source into a store, with the calls the program uses for it:
the environment as in `newViper` (lines 97-98), the flags as in `New`
(line 61), the config file as in the hook (lines 47-51), which reads the
`config` setting from the store as it is at that moment. -/
def load (os : OS) (pkg : Pkg) (cli : pflag.CommandLine) : Source → Viper → Viper
  | .env, v => viper.AutomaticEnv (viper.SetEnvPrefix v "hubble")
  | .flags, v => viper.BindPFlags v (New.flags pkg)
  | .file, v =>
    (viper.ReadInConfig
      (if viper.GetString v (pflag.Parse (New.flags pkg) cli) os "config" ≠ "" then
        viper.SetConfigFile v (viper.GetString v (pflag.Parse (New.flags pkg) cli) os "config")
       else v) os).1

/-- Loading the sources in a given order. -/
def loadAll (os : OS) (pkg : Pkg) (cli : pflag.CommandLine) (order : List Source)
    (v : Viper) : Viper :=
  order.foldl (fun v src => load os pkg cli src v) v

/-- A store with its environment and flag fields replaced. -/
def Viper.withSources (v : Viper) (e : String) (a : Bool) (pf : List (String × String)) : Viper :=
  { v with envPrefix := e, automaticEnvApplied := a, pflags := pf }

/-- The machine `bare` with `HUBBLE_TIMEOUT` set to the empty string. -/
def emptyTimeoutVar : OS :=
  { bare with LookupEnv := fun k => if k = "HUBBLE_TIMEOUT" then some "" else none }

/-- The machine `bare` with `HUBBLE_SERVER=env-value`. -/
def serverVar : OS :=
  { bare with LookupEnv := fun k => if k = "HUBBLE_SERVER" then some "env-value" else none }

/-- The command line `--server flag-value`. -/
def serverFlag : pflag.CommandLine :=
  fun name => if name = "server" then some "flag-value" else none

/-- The machine `bare` with `HUBBLE_DEBUG` set to the empty string and a
`config.yaml` in the working directory that holds `debug: true`. -/
def emptyDebugVarAndFile : OS :=
  { bare with
    LookupEnv := fun k => if k = "HUBBLE_DEBUG" then some "" else none
    ReadFile := fun path =>
      if path = "/work/config.yaml" then some (.yaml [("debug", .bool true)]) else none }

/-- The machine `bare` with a `config.yaml` in the working directory that holds
`debug: true`. -/
def debugFile : OS :=
  { bare with
    ReadFile := fun path =>
      if path = "/work/config.yaml" then some (.yaml [("debug", .bool true)]) else none }

/-- The machine `bare` with a `config.yaml` in the working directory that holds
`server: ~`, the key with a null value. -/
def nullServerFile : OS :=
  { bare with
    ReadFile := fun path =>
      if path = "/work/config.yaml" then some (.yaml [("server", .null)]) else none }

/-- The machine `bare` with a `config.yaml` in the working directory that holds
`debug:`, the key with a null value. -/
def nullDebugFile : OS :=
  { bare with
    ReadFile := fun path =>
      if path = "/work/config.yaml" then some (.yaml [("debug", .null)]) else none }

/-- The machine `bare` with `HUBBLE_SERVER` set to the empty string. -/
def emptyServerVar : OS :=
  { bare with LookupEnv := fun k => if k = "HUBBLE_SERVER" then some "" else none }

/-- The machine `bare` with `HUBBLE_SERVER=unix:///tmp/s.sock`. -/
def socketVar : OS :=
  { bare with
    LookupEnv := fun k => if k = "HUBBLE_SERVER" then some "unix:///tmp/s.sock" else none }

/-- What a file contributes to the store: its mapping when it is there and
parses, nothing otherwise. -/
def contribution (os : OS) (path : String) : List (String × Value) :=
  match os.ReadFile path with
  | some (.yaml kv) => kv
  | _ => []

/-- The candidate directories in the words of the spec, as absolute paths: the
working directory, then `hubble` under the user-config directory when that
resolves, then `.hubble` under the home directory when that resolves. -/
def specDirs (os : OS) : List String :=
  (filepath.Abs os ".").toList
    ++ (os.UserConfigDir.bind fun dir => filepath.Abs os (filepath.Join dir "hubble")).toList
    ++ (os.UserHomeDir.bind fun dir => filepath.Abs os (filepath.Join dir ".hubble")).toList

/-- The `config` YAML file of a directory in the words of the spec:
`config.yaml`, else `config.yml`, when the directory holds it. -/
def yamlConfigFile (os : OS) (dir : String) : Option String :=
  [filepath.Join dir "config.yaml", filepath.Join dir "config.yml"].find?
    fun file => (os.ReadFile file).isSome

/-- The file the spec says is loaded when no path is given: the `config` YAML
file of the first candidate directory that holds one. -/
def specLoadedFile (os : OS) : Option String :=
  (specDirs os).findSome? (yamlConfigFile os)

/-- The names under which a directory can hold the config file, in the order
in which they are tried. -/
def configFileNames : List String :=
  ["config.json", "config.toml", "config.yaml", "config.yml", "config.properties",
    "config.props", "config.prop", "config.hcl", "config.dotenv", "config.env", "config.ini",
    "config"]

/-- The config file of a directory: the first of `configFileNames` that the
directory holds. -/
def configFileIn (os : OS) (dir : String) : Option String :=
  (configFileNames.map (filepath.Join dir)).find? fun file => (os.ReadFile file).isSome

/-- The file that is loaded when no path is given: the config file of the first
candidate directory that holds one. -/
def loadedFile (os : OS) : Option String :=
  (specDirs os).findSome? (configFileIn os)

/-- A path that begins with a dollar sign. -/
def leadsWithDollar (path : String) : Bool := path.data.head? == some '$'

/-- The machine `bare` with a `config.toml` in the working directory, which is
not a YAML mapping, and a `config.yaml` under `~/.hubble`. -/
def tomlInWorkingDir : OS :=
  { bare with
    ReadFile := fun path =>
      if path = "/work/config.toml" then some .malformed
      else if path = "/home/u/.hubble/config.yaml" then
        some (.yaml [("server", .str "from-home")])
      else none }

/-- The machine `bare` with the home directory given as `$FOO` and the variable
`FOO` set to `/srv`. -/
def dollarHome : OS :=
  { bare with
    UserHomeDir := some "$FOO"
    LookupEnv := fun k => if k = "FOO" then some "/srv" else none }

/-- The machine `bare` on which `os.Getwd` fails. -/
def noWorkingDir : OS :=
  { bare with Getwd := "" }

/-- The machine `bare` with no config file in the working directory, one under
the user-config directory and one under the home directory. -/
def twoConfigFiles : OS :=
  { bare with
    ReadFile := fun path =>
      if path = "/home/u/.config/hubble/config.yaml" then
        some (.yaml [("server", .str "from-user-config-dir")])
      else if path = "/home/u/.hubble/config.yaml" then
        some (.yaml [("server", .str "from-home")])
      else none }

/-- The machine `bare` with a `config.yaml` in the working directory and a file
`/etc/h.yaml`. -/
def explicitAndLocal : OS :=
  { bare with
    ReadFile := fun path =>
      if path = "/work/config.yaml" then some (.yaml [("server", .str "from-cwd")])
      else if path = "/etc/h.yaml" then some (.yaml [("debug", .bool true)])
      else none }

/-- The command line `--config /etc/h.yaml`. -/
def configFlag : pflag.CommandLine :=
  fun name => if name = "config" then some "/etc/h.yaml" else none

/-- The file the hook tries to load: the `config` setting when it is not empty,
else the config file of the first candidate directory that has one. -/
def locatedFile (pkg : Pkg) (os : OS) (cli : pflag.CommandLine) : Option String :=
  if configSetting pkg os cli ≠ "" then some (configSetting pkg os cli)
  else firstConfigFile os (candidateDirs os)

/-- The machine `bare` with a `config.yaml` in the working directory that does
not parse and `HUBBLE_DEBUG=true`. -/
def brokenFile : OS :=
  { bare with
    LookupEnv := fun k => if k = "HUBBLE_DEBUG" then some "true" else none
    ReadFile := fun path => if path = "/work/config.yaml" then some .malformed else none }

/-- The machine `bare` with a file `rel.yaml`, by relative path, that holds
`debug: true`. -/
def relativeFile : OS :=
  { bare with
    ReadFile := fun path =>
      if path = "rel.yaml" then some (.yaml [("debug", .bool true)]) else none }

/-- The command line `--config rel.yaml`. -/
def relativeFlag : pflag.CommandLine :=
  fun name => if name = "config" then some "rel.yaml" else none

/-- The machine `bare` with a single file, `.hubble.yaml` in the home
directory, that holds `server: from-dotfile`. -/
def homeDotfile : OS :=
  { bare with
    ReadFile := fun path =>
      if path = "/home/u/.hubble.yaml" then some (.yaml [("server", .str "from-dotfile")])
      else none }

/-! ## Lemmas on the library layer -/

section PathLemmas

open filepath

theorem splitSlash_ne_nil (p : List Char) : splitSlash p ≠ [] := by
  induction p with
  | nil => simp [splitSlash]
  | cons c cs ih =>
    unfold splitSlash
    split_ifs
    · simp
    · rcases h : splitSlash cs with _ | ⟨x, xs⟩ <;> simp

theorem splitSlash_noSlash (p : List Char) : ∀ c ∈ splitSlash p, '/' ∉ c := by
  induction p with
  | nil => simp [splitSlash]
  | cons c cs ih =>
    unfold splitSlash
    split_ifs with hc
    · intro x hx
      rcases List.mem_cons.mp hx with rfl | hx
      · simp
      · exact ih x hx
    · rcases h : splitSlash cs with _ | ⟨x, xs⟩
      · exact absurd h (splitSlash_ne_nil cs)
      · rw [h] at ih
        intro y hy
        rcases List.mem_cons.mp hy with rfl | hy
        · intro hm
          rcases List.mem_cons.mp hm with h1 | h1
          · exact hc h1.symm
          · exact ih x (List.mem_cons_self _ _) h1
        · exact ih y (List.mem_cons_of_mem _ hy)

theorem splitSlash_of_noSlash (x : List Char) (h : '/' ∉ x) : splitSlash x = [x] := by
  induction x with
  | nil => rfl
  | cons c cs ih =>
    have hc : ¬ c = '/' := fun e => h (by simp [e])
    have hcs : '/' ∉ cs := fun e => h (List.mem_cons_of_mem _ e)
    rw [splitSlash, if_neg hc, ih hcs]

theorem splitSlash_append (x z : List Char) (h : '/' ∉ x) :
    splitSlash (x ++ '/' :: z) = x :: splitSlash z := by
  induction x with
  | nil => simp [splitSlash]
  | cons c cs ih =>
    have hc : ¬ c = '/' := fun e => h (by simp [e])
    have hcs : '/' ∉ cs := fun e => h (List.mem_cons_of_mem _ e)
    rw [List.cons_append, splitSlash, if_neg hc, ih hcs]

theorem splitSlash_joinSlash (l : List (List Char)) (hl : l ≠ [])
    (h : ∀ c ∈ l, '/' ∉ c) : splitSlash (joinSlash l) = l := by
  induction l with
  | nil => exact absurd rfl hl
  | cons x rest ih =>
    rcases rest with _ | ⟨y, r⟩
    · exact splitSlash_of_noSlash x (h x (List.mem_cons_self _ _))
    · unfold joinSlash
      rw [splitSlash_append x _ (h x (List.mem_cons_self _ _)),
        ih (by simp) (fun c hc => h c (List.mem_cons_of_mem _ hc))]


theorem cleanStep_skip (rooted : Bool) (kept : List (List Char)) (elem : List Char)
    (h : elem = [] ∨ elem = ['.']) : cleanStep rooted kept elem = kept := by
  unfold cleanStep
  rw [if_pos h]

theorem cleanStep_dots_nil (rooted : Bool) :
    cleanStep rooted [] ['.', '.'] = if rooted then [] else [['.', '.']] := by
  cases rooted <;> rfl

theorem cleanStep_dots_dots (rooted : Bool) (rest : List (List Char)) :
    cleanStep rooted (['.', '.'] :: rest) ['.', '.'] = ['.', '.'] :: ['.', '.'] :: rest := by
  cases rooted <;> rfl

theorem cleanStep_dots_pop (rooted : Bool) (top : List Char) (rest : List (List Char))
    (h : top ≠ ['.', '.']) : cleanStep rooted (top :: rest) ['.', '.'] = rest := by
  unfold cleanStep
  have h1 : ¬ ((['.', '.'] : List Char) = [] ∨ (['.', '.'] : List Char) = ['.']) := by decide
  rw [if_neg h1, if_pos rfl]
  dsimp only
  rw [if_neg h]

theorem cleanStep_push (rooted : Bool) (kept : List (List Char)) (elem : List Char)
    (h1 : elem ≠ []) (h2 : elem ≠ ['.']) (h3 : elem ≠ ['.', '.']) :
    cleanStep rooted kept elem = elem :: kept := by
  unfold cleanStep
  rw [if_neg (by push_neg; exact ⟨h1, h2⟩), if_neg h3]

theorem cleanStep_inv (rooted : Bool) (kept : List (List Char)) (elem : List Char)
    (h : KeptInv rooted kept) (he : '/' ∉ elem) : KeptInv rooted (cleanStep rooted kept elem) := by
  obtain ⟨hg, k, front, hk, hf, hr⟩ := h
  have hdd : GoodElem ['.', '.'] := ⟨by decide, by decide, by decide⟩
  by_cases h1 : elem = [] ∨ elem = ['.']
  · rw [cleanStep_skip _ _ _ h1]
    exact ⟨hg, k, front, hk, hf, hr⟩
  · push_neg at h1
    by_cases h2 : elem = ['.', '.']
    · subst h2
      rcases kept with _ | ⟨top, rest⟩
      · rw [cleanStep_dots_nil]
        cases rooted
        · refine ⟨?_, 1, [], rfl, by simp, by simp⟩
          intro c hc
          rw [if_neg (by decide), List.mem_singleton] at hc
          subst hc
          exact hdd
        · exact ⟨by simp, 0, [], rfl, by simp, fun _ => rfl⟩
      · by_cases ht : top = ['.', '.']
        · subst ht
          rw [cleanStep_dots_dots]
          rcases front with _ | ⟨f, fs⟩
          · rw [List.nil_append] at hk
            refine ⟨?_, k + 1, [], ?_, by simp, ?_⟩
            · intro c hc
              rcases List.mem_cons.mp hc with rfl | hc
              · exact hdd
              · exact hg c hc
            · rw [List.nil_append, hk]
              rfl
            · intro hrt
              have := hr hrt
              subst this
              simp at hk
          · rw [List.cons_append] at hk
            have := (List.cons.inj hk).1
            subst this
            exact absurd (List.mem_cons_self _ _) hf
        · rw [cleanStep_dots_pop _ _ _ ht]
          rcases front with _ | ⟨f, fs⟩
          · rw [List.nil_append] at hk
            rcases k with _ | k
            · simp at hk
            · rw [List.replicate_succ] at hk
              exact absurd (List.cons.inj hk).1 ht
          · rw [List.cons_append] at hk
            obtain ⟨-, h2'⟩ := List.cons.inj hk
            refine ⟨fun c hc => hg c (List.mem_cons_of_mem _ hc), k, fs, h2', ?_, hr⟩
            exact fun hm => hf (List.mem_cons_of_mem _ hm)
    · rw [cleanStep_push _ _ _ h1.1 h1.2 h2]
      refine ⟨?_, k, elem :: front, by rw [hk]; rfl, ?_, hr⟩
      · intro c hc
        rcases List.mem_cons.mp hc with rfl | hc
        · exact ⟨h1.1, h1.2, he⟩
        · exact hg c hc
      · intro hm
        rcases List.mem_cons.mp hm with hm | hm
        · exact h2 hm.symm
        · exact hf hm

theorem foldl_cleanStep_inv (rooted : Bool) (l kept : List (List Char))
    (h : KeptInv rooted kept) (hl : ∀ c ∈ l, '/' ∉ c) :
    KeptInv rooted (l.foldl (cleanStep rooted) kept) := by
  induction l generalizing kept with
  | nil => exact h
  | cons x xs ih =>
    rw [List.foldl_cons]
    exact ih _ (cleanStep_inv rooted kept x h (hl x (List.mem_cons_self _ _)))
      (fun c hc => hl c (List.mem_cons_of_mem _ hc))

theorem foldl_push (rooted : Bool) (l acc : List (List Char))
    (hl : ∀ c ∈ l, GoodElem c ∧ c ≠ ['.', '.']) :
    l.foldl (cleanStep rooted) acc = l.reverse ++ acc := by
  induction l generalizing acc with
  | nil => rfl
  | cons x xs ih =>
    obtain ⟨⟨h1, h2, -⟩, h3⟩ := hl x (List.mem_cons_self _ _)
    have hs : cleanStep rooted acc x = x :: acc := cleanStep_push _ _ _ h1 h2 h3
    rw [List.foldl_cons, hs, ih _ (fun c hc => hl c (List.mem_cons_of_mem _ hc))]
    simp

theorem foldl_dots (k j : Nat) :
    (List.replicate k ['.', '.']).foldl (cleanStep false) (List.replicate j ['.', '.']) =
      List.replicate (k + j) ['.', '.'] := by
  induction k generalizing j with
  | zero => simp
  | succ k ih =>
    have hs : cleanStep false (List.replicate j ['.', '.']) ['.', '.'] =
        List.replicate (j + 1) ['.', '.'] := by
      rcases j with _ | j
      · rfl
      · rw [List.replicate_succ, cleanStep_dots_dots]
        rfl
    rw [List.replicate_succ, List.foldl_cons, hs, ih]
    congr 1
    omega

theorem refold (rooted : Bool) (kept : List (List Char)) (h : KeptInv rooted kept) :
    kept.reverse.foldl (cleanStep rooted) [] = kept := by
  obtain ⟨hg, k, front, hk, hf, hr⟩ := h
  have hfront : ∀ c ∈ front.reverse, GoodElem c ∧ c ≠ ['.', '.'] := by
    intro c hc
    rw [List.mem_reverse] at hc
    refine ⟨hg c (by rw [hk]; exact List.mem_append_left _ hc), ?_⟩
    intro e
    exact hf (e ▸ hc)
  rw [hk, List.reverse_append, List.reverse_replicate, List.foldl_append]
  have hd : (List.replicate k ['.', '.']).foldl (cleanStep rooted) [] =
      List.replicate k ['.', '.'] := by
    cases rooted
    · exact foldl_dots k 0
    · rw [hr rfl]
      rfl
  rw [hd, foldl_push rooted _ _ hfront, List.reverse_reverse]

theorem joinSlash_eq_nil (l : List (List Char)) (h : ∀ c ∈ l, c ≠ [])
    (hj : joinSlash l = []) : l = [] := by
  rcases l with _ | ⟨x, rest⟩
  · rfl
  · exfalso
    have hx := h x (List.mem_cons_self _ _)
    rcases rest with _ | ⟨y, r⟩
    · exact hx hj
    · unfold joinSlash at hj
      simp at hj

theorem joinSlash_head (x : List Char) (rest : List (List Char)) (hx : x ≠ []) :
    (joinSlash (x :: rest)).head? = x.head? := by
  rcases x with _ | ⟨c, cs⟩
  · exact absurd rfl hx
  · rcases rest with _ | ⟨y, r⟩ <;> simp [joinSlash]

theorem reclean_body (rooted : Bool) (kept : List (List Char)) (h : KeptInv rooted kept) :
    (splitSlash (joinSlash kept.reverse)).foldl (cleanStep rooted) [] = kept := by
  rcases hk : kept with _ | ⟨x, rest⟩
  · rfl
  · rw [← hk, splitSlash_joinSlash kept.reverse (by rw [hk]; simp)
      (fun c hc => (h.1 c (List.mem_reverse.mp hc)).2.2)]
    exact refold rooted kept h

theorem cleanChars_idem (p : List Char) : cleanChars (cleanChars p) = cleanChars p := by
  by_cases hp : p = []
  · subst hp
    decide
  · have hinv := foldl_cleanStep_inv (p.head? == some '/') (splitSlash p) []
      ⟨by simp, 0, [], rfl, by simp, fun _ => rfl⟩ (splitSlash_noSlash p)
    have hc : cleanChars p =
        if (p.head? == some '/') = true then
          '/' :: joinSlash ((splitSlash p).foldl (cleanStep (p.head? == some '/')) []).reverse
        else if joinSlash ((splitSlash p).foldl (cleanStep (p.head? == some '/')) []).reverse = []
          then ['.']
        else joinSlash ((splitSlash p).foldl (cleanStep (p.head? == some '/')) []).reverse := by
      unfold cleanChars
      rw [if_neg hp]
    rw [hc]
    generalize ((splitSlash p).foldl (cleanStep (p.head? == some '/')) []) = kept at hinv
    generalize (p.head? == some '/') = rooted at hinv
    have hre := reclean_body rooted kept hinv
    cases rooted
    · simp only [Bool.false_eq_true, if_false]
      split_ifs with hb
      · decide
      · have hne : kept.reverse ≠ [] := by
          intro e
          rw [e] at hb
          exact hb rfl
        obtain ⟨x, rest, hx⟩ := List.exists_cons_of_ne_nil hne
        have hgx : GoodElem x := hinv.1 x (List.mem_reverse.mp (by rw [hx]; simp))
        have hhead : ((joinSlash kept.reverse).head? == some '/') = false := by
          rw [hx, joinSlash_head x rest hgx.1]
          rcases x with _ | ⟨c, cs⟩
          · exact absurd rfl hgx.1
          · have : c ≠ '/' := fun e => hgx.2.2 (by simp [e])
            simpa using this
        unfold cleanChars
        rw [if_neg hb]
        simp only [hhead, hre, Bool.false_eq_true, if_false, hb]
    · simp only [if_true]
      unfold cleanChars
      have h1 : ('/' :: joinSlash kept.reverse) ≠ [] := by simp
      have h2 : splitSlash ('/' :: joinSlash kept.reverse) =
          [] :: splitSlash (joinSlash kept.reverse) := by
        rw [splitSlash, if_pos rfl]
      rw [if_neg h1]
      simp only [List.head?_cons, beq_self_eq_true, if_true, h2, List.foldl_cons,
        cleanStep_skip true [] [] (Or.inl rfl), hre]


theorem splitSlash_append_sep (a b : List Char) :
    splitSlash (a ++ '/' :: b) = splitSlash a ++ splitSlash b := by
  induction a with
  | nil =>
    rw [List.nil_append, splitSlash]
    simp [splitSlash]
  | cons c cs ih =>
    rw [List.cons_append]
    by_cases hc : c = '/'
    · rw [splitSlash, if_pos hc, ih, splitSlash, if_pos hc]
      rfl
    · rw [splitSlash, if_neg hc, ih, splitSlash, if_neg hc]
      rcases h : splitSlash cs with _ | ⟨x, xs⟩
      · exact absurd h (splitSlash_ne_nil cs)
      · rfl

theorem cleanChars_dot (d : List Char) (hd : d ≠ []) :
    cleanChars (d ++ '/' :: ['.']) = cleanChars d := by
  have h1 : d ++ '/' :: ['.'] ≠ [] := by simp
  have h2 : (d ++ '/' :: ['.']).head? = d.head? := by
    rcases d with _ | ⟨c, cs⟩
    · exact absurd rfl hd
    · rfl
  have h3 : splitSlash ['.'] = [['.']] := by decide
  unfold cleanChars
  rw [if_neg h1, if_neg hd, h2, splitSlash_append_sep, h3]
  simp only [List.foldl_append, List.foldl_cons, List.foldl_nil,
    cleanStep_skip _ _ ['.'] (Or.inr rfl)]

theorem cleanChars_ne_nil (p : List Char) : cleanChars p ≠ [] := by
  unfold cleanChars
  by_cases hp : p = []
  · rw [if_pos hp]
    simp
  · rw [if_neg hp]
    dsimp only
    split_ifs with h1 h2
    · simp
    · simp
    · exact h2

theorem cleanChars_head (p : List Char) (h : p.head? = some '/') :
    (cleanChars p).head? = some '/' := by
  have hp : p ≠ [] := by
    intro e
    rw [e] at h
    cases h
  unfold cleanChars
  rw [if_neg hp]
  simp [h]

end PathLemmas

theorem Clean_idem (p : String) : filepath.Clean (filepath.Clean p) = filepath.Clean p := by
  unfold filepath.Clean
  rw [cleanChars_idem]

theorem Clean_ne_empty (p : String) : filepath.Clean p ≠ "" := by
  intro h
  exact cleanChars_ne_nil p.data (congrArg String.data h)

theorem IsAbs_Clean (p : String) (h : filepath.IsAbs p = true) :
    filepath.IsAbs (filepath.Clean p) = true := by
  unfold filepath.IsAbs at h ⊢
  unfold filepath.Clean
  have h1 : p.data.head? = some '/' := by simpa using h
  simp [cleanChars_head p.data h1]

theorem Join_ne_empty (dir elem : String) (h : elem ≠ "") : filepath.Join dir elem ≠ "" := by
  unfold filepath.Join
  split_ifs <;> exact Clean_ne_empty _

theorem Join_Clean (dir elem : String) (h : elem ≠ "") :
    filepath.Clean (filepath.Join dir elem) = filepath.Join dir elem := by
  unfold filepath.Join
  split_ifs <;> exact Clean_idem _

theorem Join_dot (dir : String) (h : dir ≠ "") :
    filepath.Join dir "." = filepath.Clean dir := by
  have hd : dir.data ≠ [] := fun e => h (String.ext e)
  have he : ("." : String) ≠ "" := by decide
  unfold filepath.Join
  rw [if_neg h, if_neg he]
  unfold filepath.Clean
  apply String.ext
  simp only [String.data_append, List.append_assoc]
  exact cleanChars_dot dir.data hd

theorem AddConfigPath_eq (v : Viper) (os : OS) (path : String) (h : path ≠ "") :
    viper.AddConfigPath v os path =
      { v with configPaths :=
          if viper.absPathify os path ∈ v.configPaths then v.configPaths
          else v.configPaths ++ [viper.absPathify os path] } := by
  unfold viper.AddConfigPath
  simp only [h, ne_eq, not_false_eq_true, if_true]
  split_ifs <;> rfl

theorem newViper_eq (os : OS) :
    newViper os =
      { configName := "config", configType := "yaml", configPaths := addedPaths os,
        configFile := "", envPrefix := "hubble", automaticEnvApplied := true,
        allowEmptyEnv := false, config := [], pflags := [] } := by
  have hh : ("hubble" : String) ≠ "" := by decide
  have hd : (".hubble" : String) ≠ "" := by decide
  unfold newViper addedPaths candidateDirs
  rcases hu : os.UserConfigDir with _ | u <;> rcases hm : os.UserHomeDir with _ | m <;>
    simp [viper.New, viper.SetConfigName, viper.SetConfigType, viper.SetEnvPrefix,
      viper.AutomaticEnv, AddConfigPath_eq, Join_ne_empty, hh, hd]

theorem ReadInConfig_search (v : Viper) (os : OS) (h : v.configFile = "") :
    viper.ReadInConfig v os =
      match viper.findConfigFile v os with
      | .error e => (v, some e)
      | .ok cf =>
        if viper.getConfigType { v with configFile := cf } ∉ viper.SupportedExts then
          ({ v with configFile := cf }, some .UnsupportedConfig)
        else
          match (os.ReadFile cf).map
              (viper.unmarshalReader { v with configFile := cf } os cf) with
          | none => ({ v with configFile := cf }, some .ReadFile)
          | some .malformed => ({ v with configFile := cf }, some .Parse)
          | some (.yaml kv) => ({ v with configFile := cf, config := kv }, none) := by
  unfold viper.ReadInConfig viper.getConfigFile
  rw [if_pos h]
  rcases viper.findConfigFile v os with e | cf
  · rfl
  · rfl

theorem ReadInConfig_explicit (v : Viper) (os : OS) (h : v.configFile ≠ "") :
    viper.ReadInConfig v os =
      if viper.getConfigType v ∉ viper.SupportedExts then (v, some .UnsupportedConfig)
      else
        match (os.ReadFile v.configFile).map (viper.unmarshalReader v os v.configFile) with
        | none => (v, some .ReadFile)
        | some .malformed => (v, some .Parse)
        | some (.yaml kv) => ({ v with config := kv }, none) := by
  unfold viper.ReadInConfig viper.getConfigFile
  rw [if_neg h]

theorem ReadInConfig_frame (v : Viper) (os : OS) :
    (viper.ReadInConfig v os).1.configName = v.configName ∧
    (viper.ReadInConfig v os).1.configType = v.configType ∧
    (viper.ReadInConfig v os).1.configPaths = v.configPaths ∧
    (viper.ReadInConfig v os).1.envPrefix = v.envPrefix ∧
    (viper.ReadInConfig v os).1.automaticEnvApplied = v.automaticEnvApplied ∧
    (viper.ReadInConfig v os).1.allowEmptyEnv = v.allowEmptyEnv ∧
    (viper.ReadInConfig v os).1.pflags = v.pflags := by
  by_cases h : v.configFile = ""
  · rw [ReadInConfig_search v os h]
    repeat' split
    all_goals exact ⟨rfl, rfl, rfl, rfl, rfl, rfl, rfl⟩
  · rw [ReadInConfig_explicit v os h]
    repeat' split
    all_goals exact ⟨rfl, rfl, rfl, rfl, rfl, rfl, rfl⟩

theorem ReadInConfig_error (v : Viper) (os : OS) (e : Error)
    (he : (viper.ReadInConfig v os).2 = some e) :
    (viper.ReadInConfig v os).1.config = v.config := by
  revert he
  by_cases h : v.configFile = ""
  · rw [ReadInConfig_search v os h]
    repeat' split
    all_goals first | (intro _; rfl) | (intro hc; cases hc)
  · rw [ReadInConfig_explicit v os h]
    repeat' split
    all_goals first | (intro _; rfl) | (intro hc; cases hc)

theorem onInitialize_vp (os : OS) (a : App) : (onInitialize os a).vp = (hookLoad os a).1 := by
  unfold onInitialize hookLoad
  simp only
  split_ifs <;> rfl

theorem onInitialize_rootCmd (os : OS) (a : App) : (onInitialize os a).rootCmd = a.rootCmd := by
  unfold onInitialize
  simp only
  split_ifs <;> rfl

theorem onInitialize_written (os : OS) (a : App) :
    (onInitialize os a).written =
      if (hookLoad os a).2 = none ∧ viper.GetBool (hookLoad os a).1 a.rootCmd.pflags os "debug" = true
      then a.written ++ [(cobra.ErrOrStderr a.rootCmd,
        "Using config file: " ++ viper.ConfigFileUsed (hookLoad os a).1 ++ "\n")]
      else a.written := by
  unfold onInitialize hookLoad
  simp only
  split_ifs <;> rfl

theorem Lookup_Parse (fs : pflag.FlagSet) (cli : pflag.CommandLine) (name : String) :
    pflag.Lookup (pflag.Parse fs cli) name =
      (pflag.Lookup fs name).map fun f =>
        match cli name with
        | some s => { f with ValueString := s, HasChanged := true }
        | none => f := by
  unfold pflag.Lookup pflag.Parse
  induction fs with
  | nil => rfl
  | cons f fs ih =>
    rw [List.map_cons]
    by_cases hf : f.Name = name
    · subst hf
      rcases hc : cli f.Name with _ | s <;> simp [List.find?_cons, hc]
    · have h1 : (f.Name == name) = false := by simpa using hf
      have h2 : ((match cli f.Name with
          | some v => ({ f with ValueString := v, HasChanged := true } : pflag.Flag)
          | none => f).Name == name) = false := by
        rcases cli f.Name with _ | s <;> simpa using hf
      rw [List.find?_cons, h2, List.find?_cons, h1]
      exact ih

theorem ToLower_settings (n : String) (hn : n ∈ settings) : strings.ToLower n = n := by
  simp only [settings, List.mem_cons, List.mem_singleton, List.not_mem_nil, or_false] at hn
  rcases hn with rfl | rfl | rfl | rfl <;> decide

theorem envVar_settings (v : Viper) (he : v.envPrefix = "hubble") (n : String) :
    viper.mergeWithEnvPrefix v n = envVar n := by
  unfold viper.mergeWithEnvPrefix envVar strings.ToUpper
  have h : ("hubble" : String) ≠ "" := by decide
  rw [he, if_pos h]
  apply String.ext
  simp only [String.data_append, List.map_append]
  rfl

theorem pflags_New (pkg : Pkg) (os : OS) :
    (viper.BindPFlags (newViper os) (New.flags pkg)).pflags =
      [("timeout", "timeout"), ("server", "server"), ("debug", "debug"), ("config", "config")] := by
  rw [newViper_eq]
  have h1 : strings.ToLower "config" = "config" := by decide
  have h2 : strings.ToLower "debug" = "debug" := by decide
  have h3 : strings.ToLower "server" = "server" := by decide
  have h4 : strings.ToLower "timeout" = "timeout" := by decide
  simp [viper.BindPFlags, New.flags, pflag.StringFlag, pflag.BoolP, pflag.Duration, h1, h2, h3, h4]

theorem boundFlag_settings (pkg : Pkg) (cli : pflag.CommandLine) (v : Viper)
    (hp : v.pflags =
      [("timeout", "timeout"), ("server", "server"), ("debug", "debug"), ("config", "config")])
    (n : String) (hn : n ∈ settings) :
    viper.boundFlag v (pflag.Parse (New.flags pkg) cli) n =
      (pflag.Lookup (New.flags pkg) n).map fun f =>
        match cli n with
        | some s => { f with ValueString := s, HasChanged := true }
        | none => f := by
  unfold viper.boundFlag
  have hl : v.pflags.lookup n = some n := by
    rw [hp]
    simp only [settings, List.mem_cons, List.mem_singleton, List.not_mem_nil, or_false] at hn
    rcases hn with rfl | rfl | rfl | rfl <;> decide
  rw [hl, Option.some_bind, Lookup_Parse]

theorem Lookup_settings (pkg : Pkg) (n : String) (hn : n ∈ settings) :
    ∃ f, pflag.Lookup (New.flags pkg) n = some f ∧ f.HasChanged = false := by
  simp only [settings, List.mem_cons, List.mem_singleton, List.not_mem_nil, or_false] at hn
  rcases hn with rfl | rfl | rfl | rfl <;>
    simp [pflag.Lookup, New.flags, pflag.StringFlag, pflag.BoolP, pflag.Duration, List.find?_cons]

/-- The lookup of a setting in a store that carries the bindings of `New` and the
environment set-up of `newViper`, whatever its config-file content. -/
theorem Get_settings (pkg : Pkg) (os : OS) (cli : pflag.CommandLine) (v : Viper)
    (hp : v.pflags =
      [("timeout", "timeout"), ("server", "server"), ("debug", "debug"), ("config", "config")])
    (he : v.envPrefix = "hubble") (ha : v.automaticEnvApplied = true)
    (hz : v.allowEmptyEnv = false) (n : String) (hn : n ∈ settings) :
    viper.Get v (pflag.Parse (New.flags pkg) cli) os n =
      highestPresent
        [flagSource pkg cli n, envSource os n,
          (v.config.lookup n).filter (fun val => val != .null), builtinDefault pkg n] := by
  obtain ⟨f, hf, hch⟩ := Lookup_settings pkg n hn
  unfold viper.Get viper.find
  rw [ToLower_settings n hn, boundFlag_settings pkg cli v hp n hn, envVar_settings v he, ha, hf]
  unfold highestPresent flagSource envSource builtinDefault viper.getEnv
  rw [hf, hz]
  rcases hc : cli n with _ | s
  · generalize (v.config.lookup n).filter (fun val => val != Value.null) = fileval
    rcases hl : os.LookupEnv (envVar n) with _ | val
    · rcases fileval with _ | x <;> simp [hch, Option.filter]
    · by_cases hv : val = ""
      · rcases fileval with _ | x <;> simp [hch, hv, Option.filter]
      · rcases fileval with _ | x <;> simp [hch, hv, Option.filter]
  · simp [Option.filter]

theorem hookLoad_frame (os : OS) (a : App) :
    (hookLoad os a).1.configName = a.vp.configName ∧
    (hookLoad os a).1.configType = a.vp.configType ∧
    (hookLoad os a).1.configPaths = a.vp.configPaths ∧
    (hookLoad os a).1.envPrefix = a.vp.envPrefix ∧
    (hookLoad os a).1.automaticEnvApplied = a.vp.automaticEnvApplied ∧
    (hookLoad os a).1.allowEmptyEnv = a.vp.allowEmptyEnv ∧
    (hookLoad os a).1.pflags = a.vp.pflags := by
  unfold hookLoad
  split_ifs with h
  · have hs : viper.SetConfigFile a.vp (viper.GetString a.vp a.rootCmd.pflags os "config") =
        { a.vp with configFile := viper.GetString a.vp a.rootCmd.pflags os "config" } := by
      unfold viper.SetConfigFile
      rw [if_pos h]
    rw [hs]
    exact ReadInConfig_frame _ os
  · exact ReadInConfig_frame _ os

theorem New_vp (pkg : Pkg) (os : OS) :
    (New pkg os).vp =
      { configName := "config", configType := "yaml", configPaths := addedPaths os,
        configFile := "", envPrefix := "hubble", automaticEnvApplied := true,
        allowEmptyEnv := false, config := [],
        pflags :=
          [("timeout", "timeout"), ("server", "server"), ("debug", "debug"),
            ("config", "config")] } := by
  have h : (New pkg os).vp = viper.BindPFlags (newViper os) (New.flags pkg) := rfl
  have hp := pflags_New pkg os
  rw [h]
  rw [newViper_eq] at hp ⊢
  have h1 : strings.ToLower "config" = "config" := by decide
  have h2 : strings.ToLower "debug" = "debug" := by decide
  have h3 : strings.ToLower "server" = "server" := by decide
  have h4 : strings.ToLower "timeout" = "timeout" := by decide
  simp [viper.BindPFlags, New.flags, pflag.StringFlag, pflag.BoolP, pflag.Duration, h1, h2, h3, h4]

theorem Execute_rootCmd (pkg : Pkg) (os : OS) (cli : pflag.CommandLine) :
    (Execute pkg os cli).rootCmd =
      { (New pkg os).rootCmd with pflags := pflag.Parse (New.flags pkg) cli } := by
  unfold Execute
  rw [onInitialize_rootCmd]
  rfl

theorem Execute_vp (pkg : Pkg) (os : OS) (cli : pflag.CommandLine) :
    (Execute pkg os cli).vp = (hookLoad os (ParseFlags cli (New pkg os))).1 := by
  unfold Execute
  rw [onInitialize_vp]

/-- The lookup of a setting before the hook has run: no config-file source. -/
theorem Get_parsed (pkg : Pkg) (os : OS) (cli : pflag.CommandLine) (n : String)
    (hn : n ∈ settings) :
    (ParseFlags cli (New pkg os)).Get os n =
      highestPresent [flagSource pkg cli n, envSource os n, none, builtinDefault pkg n] := by
  have h := Get_settings pkg os cli (New pkg os).vp (by rw [New_vp]) (by rw [New_vp])
    (by rw [New_vp]) (by rw [New_vp]) n hn
  have hc : (New pkg os).vp.config = [] := by rw [New_vp]
  rw [hc] at h
  exact h

/-- The lookup of a setting once `Execute` has run the hook. -/
theorem Get_Execute (pkg : Pkg) (os : OS) (cli : pflag.CommandLine) (n : String)
    (hn : n ∈ settings) :
    (Execute pkg os cli).Get os n =
      highestPresent
        [flagSource pkg cli n, envSource os n, fileSource (Execute pkg os cli) n,
          builtinDefault pkg n] := by
  obtain ⟨-, -, -, h4, h5, h6, h7⟩ := hookLoad_frame os (ParseFlags cli (New pkg os))
  have hv : (ParseFlags cli (New pkg os)).vp = (New pkg os).vp := rfl
  rw [hv, New_vp] at h4 h5 h6 h7
  unfold App.Get fileSource
  rw [Execute_rootCmd, Execute_vp]
  exact Get_settings pkg os cli _ h7 h4 h5 h6 n hn

theorem find_foldl_add (l acc : List String) (g : String → Bool) :
    (l.foldl (fun acc d => if d ∈ acc then acc else acc ++ [d]) acc).find? g =
      (acc ++ l).find? g := by
  induction l generalizing acc with
  | nil => simp
  | cons d l ih =>
    rw [List.foldl_cons]
    split_ifs with hd
    · rw [ih, List.find?_append, List.find?_append]
      rcases ha : acc.find? g with _ | x
      · have hg : g d = false := by
          have := List.find?_eq_none.mp ha d hd
          simpa using this
        simp [List.find?_cons, hg]
      · simp
    · rw [ih, List.append_assoc]
      rfl

theorem find_addedPaths (os : OS) (f : String → String) (p : String → Bool) :
    ((addedPaths os).map f).find? p = ((candidateDirs os).map f).find? p := by
  rw [List.find?_map, List.find?_map]
  unfold addedPaths
  rw [find_foldl_add, List.nil_append]

theorem searchInPath_New (pkg : Pkg) (os : OS) :
    viper.searchInPath (New pkg os).vp os = viper.searchInPath (newViper os) os := by
  funext d
  unfold viper.searchInPath
  rw [New_vp, newViper_eq]

theorem yaml_supported (v : Viper) (h : v.configType = "yaml") :
    ¬ (viper.getConfigType v ∉ viper.SupportedExts) := by
  unfold viper.getConfigType
  have hne : ("yaml" : String) ≠ "" := by decide
  rw [h, if_pos hne]
  decide

theorem unmarshalReader_yaml (v : Viper) (os : OS) (file : String)
    (h : v.configType = "yaml") : viper.unmarshalReader v os file = id := by
  funext body
  unfold viper.unmarshalReader viper.getConfigType
  have hne : ("yaml" : String) ≠ "" := by decide
  have hl : strings.ToLower "yaml" ∈ ["yaml", "yml"] := by decide
  rw [h, if_pos hne, if_pos hl]
  rfl

theorem unmarshalReader_congr (v w : Viper) (os : OS) (file : String)
    (h1 : v.configType = w.configType) (h2 : v.configFile = w.configFile) :
    viper.unmarshalReader v os file = viper.unmarshalReader w os file := by
  funext body
  unfold viper.unmarshalReader viper.getConfigType
  rw [h1, h2]

/-- The load of the hook when the `config` setting is empty: the search over the
candidate directories decides. -/
theorem hookLoad_search (pkg : Pkg) (os : OS) (cli : pflag.CommandLine)
    (h : configSetting pkg os cli = "") :
    hookLoad os (ParseFlags cli (New pkg os)) =
      match firstConfigFile os (candidateDirs os) with
      | none => ((New pkg os).vp, some .ConfigFileNotFound)
      | some file =>
        match os.ReadFile file with
        | none => ({ (New pkg os).vp with configFile := file }, some .ReadFile)
        | some .malformed => ({ (New pkg os).vp with configFile := file }, some .Parse)
        | some (.yaml kv) => ({ (New pkg os).vp with configFile := file, config := kv }, none) := by
  unfold configSetting at h
  unfold hookLoad
  rw [h]
  simp only [ne_eq, not_true_eq_false, if_false]
  have hv : (ParseFlags cli (New pkg os)).vp = (New pkg os).vp := rfl
  have hf : (New pkg os).vp.configFile = "" := by rw [New_vp]
  have hfind : viper.findConfigFile (New pkg os).vp os =
      match firstConfigFile os (candidateDirs os) with
      | some file => .ok file
      | none => .error .ConfigFileNotFound := by
    unfold viper.findConfigFile firstConfigFile
    rw [searchInPath_New, ← find_addedPaths]
    have hp : (New pkg os).vp.configPaths = addedPaths os := by rw [New_vp]
    rw [hp]
  rw [hv, ReadInConfig_search _ os hf, hfind]
  rcases firstConfigFile os (candidateDirs os) with _ | file
  · rfl
  · have hy : ¬ (viper.getConfigType { (New pkg os).vp with configFile := file } ∉
        viper.SupportedExts) := yaml_supported _ (by rw [New_vp])
    have hu : viper.unmarshalReader { (New pkg os).vp with configFile := file } os file = id :=
      unmarshalReader_yaml _ os file (by rw [New_vp])
    simp only [hy, if_false, hu, Option.map_id_fun, id_eq]

/-- The load of the hook when the `config` setting is not empty: the file at
that path decides, whatever the candidate directories hold. -/
theorem hookLoad_explicit (pkg : Pkg) (os : OS) (cli : pflag.CommandLine)
    (h : configSetting pkg os cli ≠ "") :
    hookLoad os (ParseFlags cli (New pkg os)) =
      match os.ReadFile (configSetting pkg os cli) with
      | none =>
        ({ (New pkg os).vp with configFile := configSetting pkg os cli }, some .ReadFile)
      | some .malformed =>
        ({ (New pkg os).vp with configFile := configSetting pkg os cli }, some .Parse)
      | some (.yaml kv) =>
        ({ (New pkg os).vp with configFile := configSetting pkg os cli, config := kv }, none) := by
  have hd : hookLoad os (ParseFlags cli (New pkg os)) =
      viper.ReadInConfig (if configSetting pkg os cli ≠ "" then
        viper.SetConfigFile (New pkg os).vp (configSetting pkg os cli)
        else (New pkg os).vp) os := rfl
  have hs : viper.SetConfigFile (New pkg os).vp (configSetting pkg os cli) =
      { (New pkg os).vp with configFile := configSetting pkg os cli } := by
    unfold viper.SetConfigFile
    rw [if_pos h]
  rw [hd, if_pos h, hs, ReadInConfig_explicit _ os h]
  have hy : ¬ (viper.getConfigType
      { (New pkg os).vp with configFile := configSetting pkg os cli } ∉
        viper.SupportedExts) := yaml_supported _ (by rw [New_vp])
  have hu : viper.unmarshalReader
      { (New pkg os).vp with configFile := configSetting pkg os cli } os
      (configSetting pkg os cli) = id :=
    unmarshalReader_yaml _ os _ (by rw [New_vp])
  simp only [hy, if_false, hu, Option.map_id_fun, id_eq]

/-- The `config` setting before the hook runs, when the flag is passed. -/
theorem config_of_flag (pkg : Pkg) (os : OS) (cli : pflag.CommandLine) (path : String)
    (h : cli "config" = some path) : configSetting pkg os cli = path := by
  have hg := Get_parsed pkg os cli "config" (by decide)
  unfold App.Get at hg
  unfold configSetting viper.GetString
  rw [hg]
  simp [highestPresent, flagSource, h, pflag.Lookup, New.flags, pflag.StringFlag, pflag.BoolP,
    pflag.Duration, List.find?_cons, viper.flagValue, cast.ToString]

theorem BindPFlags_eq (v : Viper) (pkg : Pkg) :
    viper.BindPFlags v (New.flags pkg) =
      { v with pflags :=
          [("timeout", "timeout"), ("server", "server"), ("debug", "debug"),
            ("config", "config")] ++ v.pflags } := by
  have h1 : strings.ToLower "config" = "config" := by decide
  have h2 : strings.ToLower "debug" = "debug" := by decide
  have h3 : strings.ToLower "server" = "server" := by decide
  have h4 : strings.ToLower "timeout" = "timeout" := by decide
  simp [viper.BindPFlags, New.flags, pflag.StringFlag, pflag.BoolP, pflag.Duration, h1, h2, h3, h4]

theorem env_eq (v : Viper) :
    viper.AutomaticEnv (viper.SetEnvPrefix v "hubble") =
      { v with envPrefix := "hubble", automaticEnvApplied := true } := by
  have h : ("hubble" : String) ≠ "" := by decide
  unfold viper.AutomaticEnv viper.SetEnvPrefix
  rw [if_pos h]

theorem ReadInConfig_upd (v : Viper) (os : OS) (e : String) (a : Bool)
    (pf : List (String × String)) :
    (viper.ReadInConfig (v.withSources e a pf) os).1 =
      (viper.ReadInConfig v os).1.withSources e a pf := by
  by_cases h : v.configFile = ""
  · rw [ReadInConfig_search v os h, ReadInConfig_search (v.withSources e a pf) os h]
    have hf : viper.findConfigFile (v.withSources e a pf) os = viper.findConfigFile v os := rfl
    rw [hf]
    rcases viper.findConfigFile v os with err | cf
    · rfl
    · have hu := unmarshalReader_congr { v.withSources e a pf with configFile := cf }
        { v with configFile := cf } os cf rfl rfl
      simp only
      rw [hu]
      split_ifs with h1 h2 h2
      all_goals first
        | rfl
        | exact absurd h1 h2
        | exact absurd h2 h1
        | (rcases (os.ReadFile cf).map (viper.unmarshalReader { v with configFile := cf } os cf)
              with _ | b <;> first | rfl | (cases b <;> rfl))
  · rw [ReadInConfig_explicit v os h, ReadInConfig_explicit (v.withSources e a pf) os h]
    have hu := unmarshalReader_congr (v.withSources e a pf) v os v.configFile rfl rfl
    have hcf : (v.withSources e a pf).configFile = v.configFile := rfl
    rw [hcf, hu]
    split_ifs with h1 h2 h2
    all_goals first
      | rfl
      | exact absurd h1 h2
      | exact absurd h2 h1
      | (rcases (os.ReadFile v.configFile).map (viper.unmarshalReader v os v.configFile)
            with _ | b <;> first | rfl | (cases b <;> rfl))

theorem configSetup_eq (os : OS) :
    configSetup os =
      { configName := "config", configType := "yaml", configPaths := addedPaths os,
        configFile := "", envPrefix := "", automaticEnvApplied := false,
        allowEmptyEnv := false, config := [], pflags := [] } := by
  have hh : ("hubble" : String) ≠ "" := by decide
  have hd : (".hubble" : String) ≠ "" := by decide
  unfold configSetup addedPaths candidateDirs
  rcases hu : os.UserConfigDir with _ | u <;> rcases hm : os.UserHomeDir with _ | m <;>
    simp [viper.New, viper.SetConfigName, viper.SetConfigType, AddConfigPath_eq,
      Join_ne_empty, hh, hd]

theorem load_env_eq (os : OS) (pkg : Pkg) (cli : pflag.CommandLine) (v : Viper) :
    load os pkg cli .env v = v.withSources "hubble" true v.pflags :=
  env_eq v

theorem load_flags_eq (os : OS) (pkg : Pkg) (cli : pflag.CommandLine) (v : Viper) :
    load os pkg cli .flags v =
      v.withSources v.envPrefix v.automaticEnvApplied
        ([("timeout", "timeout"), ("server", "server"), ("debug", "debug"),
            ("config", "config")] ++ v.pflags) :=
  BindPFlags_eq v pkg

/-- The `config` setting of a store that holds no file value yet, when neither
the command line nor the environment gives a config path: it is empty, whether
or not the flags are bound and the environment is switched on. -/
theorem config_empty (os : OS) (pkg : Pkg) (cli : pflag.CommandLine) (v : Viper)
    (hcli : cli "config" = none) (henv : envSource os "config" = none)
    (hcfg : v.config = []) (hz : v.allowEmptyEnv = false)
    (hp : v.pflags = [] ∨ v.pflags =
      [("timeout", "timeout"), ("server", "server"), ("debug", "debug"), ("config", "config")])
    (he : v.automaticEnvApplied = false ∨ v.envPrefix = "hubble") :
    viper.GetString v (pflag.Parse (New.flags pkg) cli) os "config" = "" := by
  have hl : strings.ToLower "config" = "config" := by decide
  have hge : (if v.automaticEnvApplied = true then
      viper.getEnv v os (viper.mergeWithEnvPrefix v "config") else none) = none := by
    rcases he with he | he
    · rw [he]
      rfl
    · split_ifs
      · rw [envVar_settings v he]
        unfold envSource at henv
        unfold viper.getEnv
        rw [hz]
        rcases hk : os.LookupEnv (envVar "config") with _ | val
        · rfl
        · rw [hk] at henv
          by_cases hv : val = ""
          · simp [hv]
          · simp [Option.filter, hv] at henv
      · rfl
  unfold viper.GetString viper.Get viper.find
  rw [hl, hge, hcfg]
  rcases hp with hp | hp
  · have hb : viper.boundFlag v (pflag.Parse (New.flags pkg) cli) "config" = none := by
      unfold viper.boundFlag
      rw [hp]
      rfl
    rw [hb]
    rfl
  · obtain ⟨f, hf, hch⟩ := Lookup_settings pkg "config" (by decide)
    have hfv : f.ValueString = "" ∧ f.ValueType = "string" := by
      simp [pflag.Lookup, New.flags, pflag.StringFlag, pflag.BoolP, pflag.Duration,
        List.find?_cons] at hf
      rw [← hf]
      exact ⟨rfl, rfl⟩
    rw [boundFlag_settings pkg cli v hp "config" (by decide), hf, hcli]
    simp [Option.filter, hch, viper.flagValue, hfv.1, hfv.2, cast.ToString]

/-- Loading the file into the set-up store with some environment and flag
fields, when no config path is given: the file found by the search is loaded
and the environment and flag fields stay. -/
theorem load_file_eq (os : OS) (pkg : Pkg) (cli : pflag.CommandLine)
    (hcli : cli "config" = none) (henv : envSource os "config" = none)
    (e : String) (a : Bool) (pf : List (String × String))
    (hp : pf = [] ∨ pf =
      [("timeout", "timeout"), ("server", "server"), ("debug", "debug"), ("config", "config")])
    (he : a = false ∨ e = "hubble") :
    load os pkg cli .file ((configSetup os).withSources e a pf) =
      (viper.ReadInConfig (configSetup os) os).1.withSources e a pf := by
  have hc := config_empty os pkg cli ((configSetup os).withSources e a pf) hcli henv
    (by rw [configSetup_eq]; rfl) (by rw [configSetup_eq]; rfl) hp he
  have hd : load os pkg cli .file ((configSetup os).withSources e a pf) =
      (viper.ReadInConfig
        (if viper.GetString ((configSetup os).withSources e a pf)
            (pflag.Parse (New.flags pkg) cli) os "config" ≠ "" then
          viper.SetConfigFile ((configSetup os).withSources e a pf)
            (viper.GetString ((configSetup os).withSources e a pf)
              (pflag.Parse (New.flags pkg) cli) os "config")
         else (configSetup os).withSources e a pf) os).1 := rfl
  rw [hd, hc]
  simp only [ne_eq, not_true_eq_false, if_false]
  exact ReadInConfig_upd _ os e a pf

theorem load_env_ws (os : OS) (pkg : Pkg) (cli : pflag.CommandLine) (v : Viper) (e : String)
    (a : Bool) (pf : List (String × String)) :
    load os pkg cli .env (v.withSources e a pf) = v.withSources "hubble" true pf := by
  rw [load_env_eq]
  rfl

theorem load_flags_ws (os : OS) (pkg : Pkg) (cli : pflag.CommandLine) (v : Viper) (e : String)
    (a : Bool) (pf : List (String × String)) :
    load os pkg cli .flags (v.withSources e a pf) =
      v.withSources e a
        ([("timeout", "timeout"), ("server", "server"), ("debug", "debug"),
            ("config", "config")] ++ pf) := by
  rw [load_flags_eq]
  rfl

/-- When no config path is given by the command line or the environment, the
store is the same whatever the order in which the three sources are loaded
into the set-up store. -/
theorem loadAll_order (os : OS) (pkg : Pkg) (cli : pflag.CommandLine)
    (hcli : cli "config" = none) (henv : envSource os "config" = none)
    (order : List Source) (h : order.Perm [.env, .flags, .file]) :
    loadAll os pkg cli order (configSetup os) =
      loadAll os pkg cli [.env, .flags, .file] (configSetup os) := by
  have hs : configSetup os = (configSetup os).withSources "" false [] := by
    rw [configSetup_eq]
    rfl
  have f1 := load_file_eq os pkg cli hcli henv "" false [] (Or.inl rfl) (Or.inl rfl)
  have f2 := load_file_eq os pkg cli hcli henv "hubble" true [] (Or.inl rfl) (Or.inr rfl)
  have f3 := load_file_eq os pkg cli hcli henv "" false _ (Or.inr rfl) (Or.inl rfl)
  have f4 := load_file_eq os pkg cli hcli henv "hubble" true _ (Or.inr rfl) (Or.inr rfl)
  have hl := h.length_eq
  generalize hS : configSetup os = S at hs f1 f2 f3 f4 ⊢
  match order, hl with
  | [a, b, c], _ =>
    cases a <;> cases b <;> cases c <;>
      first
      | (exfalso; revert h; decide)
      | (simp only [loadAll, List.foldl_cons, List.foldl_nil]
         rw [hs]
         simp only [load_env_ws, load_flags_ws, f1, f2, f3, f4, List.append_nil])
      | simp only [loadAll, List.foldl_cons, List.foldl_nil]

theorem Execute_vp_loadAll (pkg : Pkg) (os : OS) (cli : pflag.CommandLine) :
    (Execute pkg os cli).vp =
      loadAll os pkg cli [.env, .flags, .file] (configSetup os) := by
  rw [Execute_vp]
  rfl

/-- C1, as the claim states it, fails in three ways.  With `HUBBLE_TIMEOUT` set
to the empty string, no flag and no config file, the lookup of `timeout` gives
the built-in default `5s`, not the (empty) value of the environment variable.
With a loaded config file that defines `server` with a null value, the lookup
of `server` gives the built-in default, not the value of the file.  And the
result depends on the order of loading: with `--config /etc/h.yaml`, loading
the file before the environment and the flags takes the `config.yaml` of the
working directory, so `server` is `from-cwd`, where the program's order gives
the built-in default. -/
theorem C1_counterexample :
    (emptyTimeoutVar.LookupEnv (envVar "timeout") = some "" ∧
      (Execute pkg0 emptyTimeoutVar noFlags).Get emptyTimeoutVar "timeout" =
        some (.str "5s") ∧
      (Execute pkg0 emptyTimeoutVar noFlags).Get emptyTimeoutVar "timeout" ≠
        highestPresent
          [flagSource pkg0 noFlags "timeout", envSourceIfSet emptyTimeoutVar "timeout",
            fileSourceIfDefined (Execute pkg0 emptyTimeoutVar noFlags) "timeout",
            builtinDefault pkg0 "timeout"]) ∧
    (fileSourceIfDefined (Execute pkg0 nullServerFile noFlags) "server" = some .null ∧
      (Execute pkg0 nullServerFile noFlags).Get nullServerFile "server" =
        some (.str "unix:///var/run/cilium/hubble.sock") ∧
      (Execute pkg0 nullServerFile noFlags).Get nullServerFile "server" ≠
        highestPresent
          [flagSource pkg0 noFlags "server", envSourceIfSet nullServerFile "server",
            fileSourceIfDefined (Execute pkg0 nullServerFile noFlags) "server",
            builtinDefault pkg0 "server"]) ∧
    ([Source.file, .env, .flags].Perm [.env, .flags, .file] ∧
      viper.Get
          (loadAll explicitAndLocal pkg0 configFlag [.file, .env, .flags]
            (configSetup explicitAndLocal))
          (pflag.Parse (New.flags pkg0) configFlag) explicitAndLocal "server" =
        some (.str "from-cwd") ∧
      (Execute pkg0 explicitAndLocal configFlag).Get explicitAndLocal "server" =
        some (.str "unix:///var/run/cilium/hubble.sock")) := by
  decide

/-- C1 (amended): for every global setting and every combination of sources,
the lookup after `Execute` gives the value of the highest-priority source
present, in the order built-in default < config file < environment variable <
flag passed on the command line, where an environment variable counts as
present only when it is set to a non-empty string and a key of the config file
only when its value is not null.  The program loads the environment, then the
flags, then the file; when no config path is given by `--config` or
`HUBBLE_CONFIG`, any other order of loading the three gives the same lookup. -/
theorem C1_highest_priority_source (pkg : Pkg) (os : OS) (cli : pflag.CommandLine)
    (n : String) (hn : n ∈ settings) :
    (Execute pkg os cli).Get os n =
      highestPresent
        [flagSource pkg cli n, envSource os n, fileSource (Execute pkg os cli) n,
          builtinDefault pkg n] ∧
    (Execute pkg os cli).vp =
      loadAll os pkg cli [.env, .flags, .file] (configSetup os) ∧
    (cli "config" = none → envSource os "config" = none →
      ∀ order : List Source, order.Perm [.env, .flags, .file] →
        viper.Get (loadAll os pkg cli order (configSetup os))
            (pflag.Parse (New.flags pkg) cli) os n =
          (Execute pkg os cli).Get os n) := by
  refine ⟨Get_Execute pkg os cli n hn, Execute_vp_loadAll pkg os cli, ?_⟩
  intro hcli henv order h
  rw [loadAll_order os pkg cli hcli henv order h]
  unfold App.Get
  rw [Execute_rootCmd, Execute_vp_loadAll]

/-- C1, witness: with `HUBBLE_SERVER=env-value` and `--server flag-value` the
lookup of `server` gives `flag-value`; and with a config file holding
`debug: true` and no config path given, loading the file first gives the same
lookup of `debug` as the program. -/
theorem C1_highest_priority_source_witness :
    "server" ∈ settings ∧
    (Execute pkg0 serverVar serverFlag).Get serverVar "server" = some (.str "flag-value") ∧
    (Execute pkg0 serverVar serverFlag).Get serverVar "server" =
      highestPresent
        [flagSource pkg0 serverFlag "server", envSource serverVar "server",
          fileSource (Execute pkg0 serverVar serverFlag) "server",
          builtinDefault pkg0 "server"] ∧
    (Execute pkg0 debugFile noFlags).Get debugFile "debug" = some (.bool true) ∧
    viper.Get (loadAll debugFile pkg0 noFlags [.file, .env, .flags] (configSetup debugFile))
        (pflag.Parse (New.flags pkg0) noFlags) debugFile "debug" =
      (Execute pkg0 debugFile noFlags).Get debugFile "debug" :=
  ⟨by decide, by decide,
    (C1_highest_priority_source pkg0 serverVar serverFlag "server" (by decide)).1,
    by decide,
    (C1_highest_priority_source pkg0 debugFile noFlags "debug" (by decide)).2.2 rfl
      (by decide) [.file, .env, .flags] (by decide)⟩

/-- C2, as the claim states it, fails in two ways.  With `HUBBLE_DEBUG` set (to
the empty string), no `--debug` flag and a config file holding `debug: true`,
the lookup of `debug` gives the value of the file, not the value of the
variable that is set.  With no variable and a loaded config file that defines
`debug` with a null value, the lookup gives the default of the flag, not the
value of the file. -/
theorem C2_counterexample :
    (noFlags "debug" = none ∧
      emptyDebugVarAndFile.LookupEnv (envVar "debug") = some "" ∧
      (Execute pkg0 emptyDebugVarAndFile noFlags).Get emptyDebugVarAndFile "debug" =
        some (.bool true) ∧
      (Execute pkg0 emptyDebugVarAndFile noFlags).Get emptyDebugVarAndFile "debug" ≠
        highestPresent
          [envSourceIfSet emptyDebugVarAndFile "debug",
            fileSourceIfDefined (Execute pkg0 emptyDebugVarAndFile noFlags) "debug",
            builtinDefault pkg0 "debug"]) ∧
    (nullDebugFile.LookupEnv (envVar "debug") = none ∧
      fileSourceIfDefined (Execute pkg0 nullDebugFile noFlags) "debug" = some .null ∧
      (Execute pkg0 nullDebugFile noFlags).Get nullDebugFile "debug" = some (.bool false) ∧
      (Execute pkg0 nullDebugFile noFlags).Get nullDebugFile "debug" ≠
        highestPresent
          [envSourceIfSet nullDebugFile "debug",
            fileSourceIfDefined (Execute pkg0 nullDebugFile noFlags) "debug",
            builtinDefault pkg0 "debug"]) := by
  decide

/-- C2 (amended): for every global setting whose flag was not passed on the
command line, the lookup gives the value of the environment variable if that
is set to a non-empty string, otherwise the value the loaded config file
defines for the key if that value is not null, and only otherwise the default
of the flag. -/
theorem C2_unpassed_flag_does_not_shadow (pkg : Pkg) (os : OS) (cli : pflag.CommandLine)
    (n : String) (hn : n ∈ settings) (hc : cli n = none) :
    (Execute pkg os cli).Get os n =
      highestPresent
        [envSource os n, fileSource (Execute pkg os cli) n, builtinDefault pkg n] := by
  rw [Get_Execute pkg os cli n hn]
  unfold highestPresent flagSource
  rw [hc]
  rfl

/-- C2, witness: a config file holding `debug: true`, no `--debug` flag and no
`HUBBLE_DEBUG` variable give `debug = true`, although the default of the flag
is `false`. -/
theorem C2_unpassed_flag_does_not_shadow_witness :
    "debug" ∈ settings ∧ noFlags "debug" = none ∧
    builtinDefault pkg0 "debug" = some (.bool false) ∧
    (Execute pkg0 debugFile noFlags).Get debugFile "debug" = some (.bool true) ∧
    (Execute pkg0 debugFile noFlags).Get debugFile "debug" =
      highestPresent
        [envSource debugFile "debug", fileSource (Execute pkg0 debugFile noFlags) "debug",
          builtinDefault pkg0 "debug"] :=
  ⟨by decide, rfl, by decide, by decide,
    C2_unpassed_flag_does_not_shadow pkg0 debugFile noFlags "debug" (by decide) rfl⟩

/-- C3, as the claim states it, fails: with `HUBBLE_SERVER` set (to the empty
string) and no `--server` flag, the lookup of `server` gives the built-in
default, not the value of the variable. -/
theorem C3_counterexample :
    viper.mergeWithEnvPrefix (Execute pkg0 emptyServerVar noFlags).vp "server" =
      "HUBBLE_SERVER" ∧
    emptyServerVar.LookupEnv "HUBBLE_SERVER" = some "" ∧
    noFlags "server" = none ∧
    (Execute pkg0 emptyServerVar noFlags).Get emptyServerVar "server" =
      some (.str "unix:///var/run/cilium/hubble.sock") ∧
    (Execute pkg0 emptyServerVar noFlags).Get emptyServerVar "server" ≠ some (.str "") := by
  decide

/-- C3 (amended): for every global setting `n`, the environment variable the
store consults for `n` is `HUBBLE_` followed by `n` in upper case, and when that
variable is set to a non-empty string and the flag for `n` was not passed, the
lookup of `n` gives the value of the variable. -/
theorem C3_environment_variable (pkg : Pkg) (os : OS) (cli : pflag.CommandLine)
    (n : String) (hn : n ∈ settings) :
    viper.mergeWithEnvPrefix (Execute pkg os cli).vp n = "HUBBLE_" ++ strings.ToUpper n ∧
    ∀ val : String, os.LookupEnv ("HUBBLE_" ++ strings.ToUpper n) = some val → val ≠ "" →
      cli n = none → (Execute pkg os cli).Get os n = some (.str val) := by
  constructor
  · obtain ⟨-, -, -, h4, -, -, -⟩ := hookLoad_frame os (ParseFlags cli (New pkg os))
    have hv : (ParseFlags cli (New pkg os)).vp = (New pkg os).vp := rfl
    rw [hv, New_vp] at h4
    rw [Execute_vp, envVar_settings _ h4]
    rfl
  · intro val hval hne hc
    rw [Get_Execute pkg os cli n hn]
    unfold highestPresent flagSource envSource envVar
    rw [hc, hval]
    simp [Option.filter, hne]

/-- C3, witness: `HUBBLE_SERVER=unix:///tmp/s.sock` with no `--server` flag
gives `server = unix:///tmp/s.sock`. -/
theorem C3_environment_variable_witness :
    "server" ∈ settings ∧
    "HUBBLE_" ++ strings.ToUpper "server" = "HUBBLE_SERVER" ∧
    socketVar.LookupEnv "HUBBLE_SERVER" = some "unix:///tmp/s.sock" ∧
    (Execute pkg0 socketVar noFlags).Get socketVar "server" =
      some (.str "unix:///tmp/s.sock") :=
  ⟨by decide, by decide, by decide,
    (C3_environment_variable pkg0 socketVar noFlags "server" (by decide)).2
      "unix:///tmp/s.sock" (by decide) (by decide) rfl⟩

theorem foldl_add_spec (l acc : List String) :
    ∃ l', l.foldl (fun acc d => if d ∈ acc then acc else acc ++ [d]) acc = acc ++ l' ∧
      l'.Sublist l ∧ ∀ d ∈ l, d ∈ acc ++ l' := by
  induction l generalizing acc with
  | nil => exact ⟨[], by simp, List.Sublist.refl _, by simp⟩
  | cons d l ih =>
    rw [List.foldl_cons]
    split_ifs with hd
    · obtain ⟨l', h1, h2, h3⟩ := ih acc
      refine ⟨l', h1, h2.trans (List.sublist_cons_self d l), ?_⟩
      intro x hx
      rcases List.mem_cons.mp hx with rfl | hx
      · exact List.mem_append_left _ hd
      · exact h3 x hx
    · obtain ⟨l', h1, h2, h3⟩ := ih (acc ++ [d])
      refine ⟨d :: l', by rw [h1, List.append_assoc]; rfl, h2.cons₂ d, ?_⟩
      intro x hx
      rcases List.mem_cons.mp hx with rfl | hx
      · simp
      · have := h3 x hx
        simpa [List.append_assoc] using this

theorem foldl_add_nodup (l acc : List String) (h : (acc ++ l).Nodup) :
    l.foldl (fun acc d => if d ∈ acc then acc else acc ++ [d]) acc = acc ++ l := by
  induction l generalizing acc with
  | nil => simp
  | cons d l ih =>
    rw [List.foldl_cons]
    have hd : d ∉ acc := by
      intro hd
      have := List.nodup_append.mp h
      exact this.2.2 hd (List.mem_cons_self d l)
    rw [if_neg hd, ih (acc ++ [d]) (by simpa [List.append_assoc] using h), List.append_assoc]
    rfl

theorem candidateDirs_length (os : OS) : (candidateDirs os).length ≤ 3 := by
  unfold candidateDirs
  rcases os.UserConfigDir with _ | u <;> rcases os.UserHomeDir with _ | m <;> simp

/-- The candidate list of `newViper` against the candidate directories. -/
theorem addedPaths_spec (os : OS) :
    (addedPaths os).head? = some (viper.absPathify os ".") ∧
    1 ≤ (addedPaths os).length ∧ (addedPaths os).length ≤ 3 ∧
    (addedPaths os).Sublist (candidateDirs os) ∧
    (∀ d ∈ candidateDirs os, d ∈ addedPaths os) ∧
    ((candidateDirs os).Nodup → addedPaths os = candidateDirs os) := by
  obtain ⟨tail, hc⟩ : ∃ tail, candidateDirs os = viper.absPathify os "." :: tail :=
    ⟨_, rfl⟩
  obtain ⟨l', h1, h2, h3⟩ := foldl_add_spec (candidateDirs os) []
  have hsub : (addedPaths os).Sublist (candidateDirs os) := by
    unfold addedPaths
    rw [h1, List.nil_append]
    exact h2
  have hmem : ∀ d ∈ candidateDirs os, d ∈ addedPaths os := by
    unfold addedPaths
    rw [h1]
    exact h3
  have hhead : (addedPaths os).head? = some (viper.absPathify os ".") := by
    unfold addedPaths
    rw [hc, List.foldl_cons]
    simp only [List.not_mem_nil, if_false, List.nil_append]
    obtain ⟨l2, e1, -, -⟩ := foldl_add_spec tail [viper.absPathify os "."]
    rw [e1]
    rfl
  refine ⟨hhead, ?_, ?_, hsub, hmem, ?_⟩
  · rcases hl : addedPaths os with _ | ⟨x, xs⟩
    · rw [hl] at hhead
      cases hhead
    · simp
  · exact le_trans hsub.length_le (candidateDirs_length os)
  · intro hn
    unfold addedPaths
    rw [foldl_add_nodup _ [] (by simpa using hn), List.nil_append]

theorem newViper_configPaths (os : OS) : (newViper os).configPaths = addedPaths os := by
  rw [newViper_eq]

theorem Join_Clean_left (dir elem : String) (h : dir ≠ "") :
    filepath.Clean (filepath.Join dir elem) = filepath.Join dir elem := by
  unfold filepath.Join
  rw [if_neg h]
  split_ifs <;> exact Clean_idem _

/-- On a path that does not begin with a dollar sign `absPathify` is
`filepath.Abs`, when the working directory is known. -/
theorem absPathify_plain (os : OS) (path : String) (hwd : filepath.IsAbs os.Getwd = true)
    (hp : leadsWithDollar path = false) :
    filepath.Abs os path = some (viper.absPathify os path) := by
  have hne : os.Getwd ≠ "" := by
    intro hd
    rw [hd] at hwd
    exact absurd hwd (by decide)
  have h1 : ¬ (path = "$HOME" ∨ "$HOME/".data.isPrefixOf path.data = true) := by
    unfold leadsWithDollar at hp
    rintro (h | h)
    · rw [h] at hp
      exact absurd hp (by decide)
    · rcases hd : path.data with _ | ⟨c, cs⟩
      · rw [hd] at h
        exact absurd h (by decide)
      · rw [hd] at h hp
        have hc : c = '$' := by
          have : ("$HOME/".data.isPrefixOf (c :: cs)) = (('$' == c) &&
              "HOME/".data.isPrefixOf cs) := rfl
          rw [this] at h
          simp at h
          exact h.1.symm
        rw [hc] at hp
        simp at hp
  have h2 : ¬ ("$".data.isPrefixOf path.data = true) := by
    unfold leadsWithDollar at hp
    intro h
    rcases hd : path.data with _ | ⟨c, cs⟩
    · rw [hd] at h
      exact absurd h (by decide)
    · rw [hd] at h hp
      have hc : c = '$' := by
        have : ("$".data.isPrefixOf (c :: cs)) = (('$' == c) && ([] : List Char).isPrefixOf cs) :=
          rfl
        rw [this] at h
        simp at h
        exact h.symm
      rw [hc] at hp
      simp at hp
  have hplain : viper.absPathify os path =
      if filepath.IsAbs path = true then filepath.Clean path
      else
        match filepath.Abs os path with
        | some p => filepath.Clean p
        | none => "" := by
    unfold viper.absPathify
    simp only [h1, h2, if_false, Bool.false_eq_true]
  rw [hplain]
  unfold filepath.Abs
  by_cases ha : filepath.IsAbs path = true
  · simp only [ha, if_true]
  · simp only [ha, hne, if_false, Bool.false_eq_true]
    rw [Join_Clean_left _ _ hne]

theorem candidateDirs_eq_specDirs (os : OS) (hwd : filepath.IsAbs os.Getwd = true)
    (hucd : ∀ dir, os.UserConfigDir = some dir →
      leadsWithDollar (filepath.Join dir "hubble") = false)
    (hhome : ∀ dir, os.UserHomeDir = some dir →
      leadsWithDollar (filepath.Join dir ".hubble") = false) :
    candidateDirs os = specDirs os := by
  have h0 := absPathify_plain os "." hwd (by decide)
  unfold candidateDirs specDirs
  rw [h0]
  rcases hu : os.UserConfigDir with _ | u <;> rcases hm : os.UserHomeDir with _ | m
  · rfl
  · simp [absPathify_plain os _ hwd (hhome m hm)]
  · simp [absPathify_plain os _ hwd (hucd u hu)]
  · simp [absPathify_plain os _ hwd (hucd u hu), absPathify_plain os _ hwd (hhome m hm)]

theorem find_or_else (exts : List String) (f : String → String) (q : String)
    (p : String → Bool) :
    (match exts.find? (fun e => p (f e)) with
      | some e => f e
      | none => if p q = true then q else "") =
      ((exts.map f ++ [q]).find? p).getD "" := by
  induction exts with
  | nil =>
    cases hq : p q <;> simp [List.find?_cons, hq]
  | cons e es ih =>
    cases he : p (f e)
    · simp only [List.find?_cons, he, List.map_cons, List.cons_append]
      exact ih
    · simp [List.find?_cons, he]

theorem configFileNames_eq :
    configFileNames =
      viper.SupportedExts.map (fun ext => "config" ++ "." ++ ext) ++ ["config"] := by
  decide

/-- The search of `viper` in one directory against the config file of the
directory. -/
theorem searchInPath_eq (os : OS) (dir : String) :
    viper.searchInPath (newViper os) os dir = (configFileIn os dir).getD "" := by
  have hty : ("yaml" : String) ≠ "" := by decide
  have h := find_or_else viper.SupportedExts
    (fun ext => filepath.Join dir ("config" ++ "." ++ ext)) (filepath.Join dir "config")
    (fun file => (os.ReadFile file).isSome)
  unfold viper.searchInPath configFileIn
  rw [newViper_eq, configFileNames_eq]
  simp only [List.map_append, List.map_map, List.map_cons, List.map_nil]
  have hcomp : (filepath.Join dir ∘ fun ext => "config" ++ "." ++ ext) =
      fun ext => filepath.Join dir ("config" ++ "." ++ ext) := rfl
  rw [hcomp, ← h]
  simp only [hty, ne_eq, not_false_eq_true, true_and]

theorem configFileIn_ne_empty (os : OS) (dir file : String)
    (h : configFileIn os dir = some file) : file ≠ "" := by
  unfold configFileIn at h
  have hm := List.mem_of_find?_eq_some h
  obtain ⟨name, hn, rfl⟩ := List.mem_map.mp hm
  have hne : name ≠ "" := by
    intro e
    rw [e] at hn
    exact absurd hn (by decide)
  exact Join_ne_empty dir name hne

theorem firstConfigFile_eq (os : OS) (dirs : List String) :
    firstConfigFile os dirs = dirs.findSome? (configFileIn os) := by
  unfold firstConfigFile
  induction dirs with
  | nil => rfl
  | cons d ds ih =>
    rw [List.map_cons, List.find?_cons, List.findSome?_cons, searchInPath_eq]
    rcases hc : configFileIn os d with _ | file
    · simp only [Option.getD_none]
      exact ih
    · have hne := configFileIn_ne_empty os d file hc
      have hb : (file != "") = true := by simpa using hne
      simp only [Option.getD_some, hb]

/-- C4, as the claim states it, fails in three ways.  With a `config.toml` in the
working directory and a `config.yaml` under `~/.hubble`, the first directory
that holds a `config` YAML file is `~/.hubble`, yet the file the hook takes is
`/work/config.toml`, and as that is no YAML mapping nothing is loaded.  With
the home directory given as `$FOO` and `FOO=/srv`, the third entry of the list
is `/srv/.hubble`, not `.hubble` under the home directory.  And when
`os.Getwd` fails the list starts with the empty path, not with the working
directory. -/
theorem C4_counterexample :
    (configSetting pkg0 tomlInWorkingDir noFlags = "" ∧
      specLoadedFile tomlInWorkingDir = some "/home/u/.hubble/config.yaml" ∧
      viper.ConfigFileUsed (Execute pkg0 tomlInWorkingDir noFlags).vp = "/work/config.toml" ∧
      (Execute pkg0 tomlInWorkingDir noFlags).vp.config = []) ∧
    (dollarHome.UserHomeDir = some "$FOO" ∧
      specDirs dollarHome = ["/work", "/home/u/.config/hubble", "/work/$FOO/.hubble"] ∧
      (newViper dollarHome).configPaths =
        ["/work", "/home/u/.config/hubble", "/srv/.hubble"]) ∧
    (noWorkingDir.Getwd = "" ∧ (newViper noWorkingDir).configPaths.head? = some "") := by
  decide

/-- C4 (amended): when the `config` setting is empty, the file the hook loads is
the config file of the FIRST directory of the candidate list that holds one,
where the config file of a directory is the first it holds of `config.json`,
`config.toml`, `config.yaml`, `config.yml`, `config.properties`,
`config.props`, `config.prop`, `config.hcl`, `config.dotenv`, `config.env`,
`config.ini`, `config`, and the file is decoded as YAML whatever its name; a
file that does not decode ends the search with nothing loaded.  Where
`os.Getwd` succeeds and neither of the two joined paths begins with a dollar
sign, the list `newViper` builds is, as absolute paths and in this order, the working
directory (always first), then `hubble` under the user-config directory if that
resolves, then `.hubble` under the home directory if that resolves, a directory
already in the list not being added again: between 1 and 3 entries. -/
theorem C4_first_candidate_directory_wins (pkg : Pkg) (os : OS) (cli : pflag.CommandLine)
    (h : configSetting pkg os cli = "") (hwd : filepath.IsAbs os.Getwd = true)
    (hucd : ∀ dir, os.UserConfigDir = some dir →
      leadsWithDollar (filepath.Join dir "hubble") = false)
    (hhome : ∀ dir, os.UserHomeDir = some dir →
      leadsWithDollar (filepath.Join dir ".hubble") = false) :
    (newViper os).configPaths.head? = some (filepath.Clean os.Getwd) ∧
    (specDirs os).head? = some (filepath.Clean os.Getwd) ∧
    1 ≤ (newViper os).configPaths.length ∧ (newViper os).configPaths.length ≤ 3 ∧
    (newViper os).configPaths.Sublist (specDirs os) ∧
    (∀ d ∈ specDirs os, d ∈ (newViper os).configPaths) ∧
    ((specDirs os).Nodup → (newViper os).configPaths = specDirs os) ∧
    (∀ dir, viper.searchInPath (newViper os) os dir = (configFileIn os dir).getD "") ∧
    firstConfigFile os (newViper os).configPaths = loadedFile os ∧
    locatedFile pkg os cli = loadedFile os ∧
    (∀ file, loadedFile os = some file →
      viper.ConfigFileUsed (Execute pkg os cli).vp = file ∧
      (Execute pkg os cli).vp.config = contribution os file) ∧
    (loadedFile os = none →
      viper.ConfigFileUsed (Execute pkg os cli).vp = "" ∧
      (Execute pkg os cli).vp.config = []) := by
  have hne : os.Getwd ≠ "" := by
    intro hd
    rw [hd] at hwd
    exact absurd hwd (by decide)
  obtain ⟨a1, a2, a3, a4, a5, a6⟩ := addedPaths_spec os
  have hdirs := candidateDirs_eq_specDirs os hwd hucd hhome
  have hdot : viper.absPathify os "." = filepath.Clean os.Getwd := by
    have h0 := absPathify_plain os "." hwd (by decide)
    have hrel : filepath.IsAbs "." = false := by decide
    unfold filepath.Abs at h0
    simp only [hrel, hne, if_false, Bool.false_eq_true] at h0
    rw [← Option.some.inj h0, Join_dot _ hne]
  have hfirst : firstConfigFile os (candidateDirs os) = loadedFile os := by
    rw [firstConfigFile_eq, hdirs]
    rfl
  have hspec : (specDirs os).head? = some (filepath.Clean os.Getwd) := by
    rw [← hdirs, ← hdot]
    rfl
  rw [newViper_configPaths]
  rw [hdirs] at a4 a5 a6
  rw [hdot] at a1
  refine ⟨a1, hspec, a2, a3, a4, a5, a6, searchInPath_eq os, ?_, ?_, ?_, ?_⟩
  · rw [← hfirst]
    exact find_addedPaths os _ _
  · unfold locatedFile
    rw [if_neg (not_not.mpr h), hfirst]
  · intro file hf
    rw [← hfirst] at hf
    rw [Execute_vp, hookLoad_search pkg os cli h, hf]
    unfold contribution viper.ConfigFileUsed
    dsimp only
    rcases os.ReadFile file with _ | b
    · exact ⟨rfl, by rw [New_vp]⟩
    · cases b
      · exact ⟨rfl, rfl⟩
      · exact ⟨rfl, by rw [New_vp]⟩
  · intro hf
    rw [← hfirst] at hf
    rw [Execute_vp, hookLoad_search pkg os cli h, hf]
    unfold viper.ConfigFileUsed
    exact ⟨by rw [New_vp], by rw [New_vp]⟩

/-- C4, witness: with no config file in the working directory, one under the
user-config directory and one under `~/.hubble`, the first of the two is
loaded. -/
theorem C4_first_candidate_directory_wins_witness :
    configSetting pkg0 twoConfigFiles noFlags = "" ∧
    filepath.IsAbs twoConfigFiles.Getwd = true ∧
    specDirs twoConfigFiles = ["/work", "/home/u/.config/hubble", "/home/u/.hubble"] ∧
    loadedFile twoConfigFiles = some "/home/u/.config/hubble/config.yaml" ∧
    (Execute pkg0 twoConfigFiles noFlags).Get twoConfigFiles "server" =
      some (.str "from-user-config-dir") ∧
    (newViper twoConfigFiles).configPaths = specDirs twoConfigFiles ∧
    viper.ConfigFileUsed (Execute pkg0 twoConfigFiles noFlags).vp =
      "/home/u/.config/hubble/config.yaml" :=
  ⟨by decide, by decide, by decide, by decide, by decide,
    (C4_first_candidate_directory_wins pkg0 twoConfigFiles noFlags (by decide) (by decide)
      (by decide) (by decide)).2.2.2.2.2.2.1 (by decide),
    ((C4_first_candidate_directory_wins pkg0 twoConfigFiles noFlags (by decide) (by decide)
      (by decide) (by decide)).2.2.2.2.2.2.2.2.2.2.1
        "/home/u/.config/hubble/config.yaml" (by decide)).1⟩

theorem Execute_explicit (pkg : Pkg) (os : OS) (cli : pflag.CommandLine)
    (h : configSetting pkg os cli ≠ "") :
    viper.ConfigFileUsed (Execute pkg os cli).vp = configSetting pkg os cli ∧
    (Execute pkg os cli).vp.config = contribution os (configSetting pkg os cli) := by
  rw [Execute_vp, hookLoad_explicit pkg os cli h]
  unfold contribution viper.ConfigFileUsed
  rcases os.ReadFile (configSetting pkg os cli) with _ | b
  · exact ⟨rfl, by rw [New_vp]⟩
  · cases b
    · exact ⟨rfl, rfl⟩
    · exact ⟨rfl, by rw [New_vp]⟩

/-- C5: with `--config p` on the command line, `p` not empty, the hook loads
exactly the file at `p`, verbatim: the store holds what that file contributes
and nothing else, whatever the candidate directories hold; nothing is loaded
when `New` builds the command or when the flags are parsed, the load is the
work of the hook. -/
theorem C5_explicit_config_path (pkg : Pkg) (os : OS) (cli : pflag.CommandLine)
    (path : String) (h : cli "config" = some path) (hne : path ≠ "") :
    (New pkg os).vp.config = [] ∧ viper.ConfigFileUsed (New pkg os).vp = "" ∧
    (ParseFlags cli (New pkg os)).vp.config = [] ∧
    configSetting pkg os cli = path ∧
    viper.ConfigFileUsed (Execute pkg os cli).vp = path ∧
    (Execute pkg os cli).vp.config = contribution os path ∧
    ∀ os' : OS, os'.ReadFile path = os.ReadFile path →
      viper.ConfigFileUsed (Execute pkg os' cli).vp = path ∧
      (Execute pkg os' cli).vp.config = (Execute pkg os cli).vp.config := by
  have hc : ∀ o : OS, configSetting pkg o cli = path := fun o => config_of_flag pkg o cli path h
  have he : ∀ o : OS, viper.ConfigFileUsed (Execute pkg o cli).vp = path ∧
      (Execute pkg o cli).vp.config = contribution o path := by
    intro o
    have := Execute_explicit pkg o cli (by rw [hc o]; exact hne)
    rw [hc o] at this
    exact this
  refine ⟨by rw [New_vp], by rw [New_vp]; rfl, ?_, hc os, (he os).1, (he os).2, ?_⟩
  · have hv : (ParseFlags cli (New pkg os)).vp = (New pkg os).vp := rfl
    rw [hv, New_vp]
  · intro os' hr
    refine ⟨(he os').1, ?_⟩
    rw [(he os').2, (he os).2]
    unfold contribution
    rw [hr]

/-- C5, witness: with `--config /etc/h.yaml` the store holds the content of
`/etc/h.yaml`; the `config.yaml` of the working directory contributes nothing,
`server` keeps its default. -/
theorem C5_explicit_config_path_witness :
    configFlag "config" = some "/etc/h.yaml" ∧ ("/etc/h.yaml" : String) ≠ "" ∧
    firstConfigFile explicitAndLocal (candidateDirs explicitAndLocal) =
      some "/work/config.yaml" ∧
    (Execute pkg0 explicitAndLocal configFlag).Get explicitAndLocal "server" =
      some (.str "unix:///var/run/cilium/hubble.sock") ∧
    viper.ConfigFileUsed (Execute pkg0 explicitAndLocal configFlag).vp = "/etc/h.yaml" ∧
    (Execute pkg0 explicitAndLocal configFlag).vp.config =
      contribution explicitAndLocal "/etc/h.yaml" :=
  ⟨by decide, by decide, by decide, by decide,
    (C5_explicit_config_path pkg0 explicitAndLocal configFlag "/etc/h.yaml" (by decide)
      (by decide)).2.2.2.2.1,
    (C5_explicit_config_path pkg0 explicitAndLocal configFlag "/etc/h.yaml" (by decide)
      (by decide)).2.2.2.2.2.1⟩

theorem Get_congr (v w : Viper) (flags : pflag.FlagSet) (os os' : OS) (key : String)
    (h1 : v.pflags = w.pflags) (h2 : v.envPrefix = w.envPrefix)
    (h3 : v.automaticEnvApplied = w.automaticEnvApplied)
    (h4 : v.allowEmptyEnv = w.allowEmptyEnv) (h5 : v.config = w.config)
    (h6 : os.LookupEnv = os'.LookupEnv) :
    viper.Get v flags os key = viper.Get w flags os' key := by
  unfold viper.Get viper.find viper.boundFlag viper.getEnv viper.mergeWithEnvPrefix
  rw [h1, h2, h3, h4, h5, h6]

theorem hookLoad_cases (pkg : Pkg) (os : OS) (cli : pflag.CommandLine) :
    (∃ e, (hookLoad os (ParseFlags cli (New pkg os))).2 = some e ∧
      (hookLoad os (ParseFlags cli (New pkg os))).1.config = [] ∧
      (locatedFile pkg os cli = none ∨
        ∃ file, locatedFile pkg os cli = some file ∧
          (os.ReadFile file = none ∨ os.ReadFile file = some .malformed))) ∨
    (∃ file kv, (hookLoad os (ParseFlags cli (New pkg os))).2 = none ∧
      locatedFile pkg os cli = some file ∧ os.ReadFile file = some (.yaml kv) ∧
      (hookLoad os (ParseFlags cli (New pkg os))).1.config = kv ∧
      (hookLoad os (ParseFlags cli (New pkg os))).1.configFile = file) := by
  have hn : (New pkg os).vp.config = [] := by rw [New_vp]
  unfold locatedFile
  by_cases h : configSetting pkg os cli = ""
  · rw [hookLoad_search pkg os cli h, if_neg (not_not.mpr h)]
    rcases firstConfigFile os (candidateDirs os) with _ | file
    · exact Or.inl ⟨_, rfl, hn, Or.inl rfl⟩
    · dsimp only
      rcases hr : os.ReadFile file with _ | b
      · exact Or.inl ⟨_, rfl, hn, Or.inr ⟨file, rfl, Or.inl hr⟩⟩
      · cases b
        · exact Or.inr ⟨file, _, rfl, rfl, hr, rfl, rfl⟩
        · exact Or.inl ⟨_, rfl, hn, Or.inr ⟨file, rfl, Or.inr hr⟩⟩
  · rw [hookLoad_explicit pkg os cli h, if_pos h]
    rcases hr : os.ReadFile (configSetting pkg os cli) with _ | b
    · exact Or.inl ⟨_, rfl, hn, Or.inr ⟨_, rfl, Or.inl hr⟩⟩
    · cases b
      · exact Or.inr ⟨_, _, rfl, rfl, hr, rfl, rfl⟩
      · exact Or.inl ⟨_, rfl, hn, Or.inr ⟨_, rfl, Or.inr hr⟩⟩

theorem Execute_fields (pkg : Pkg) (os : OS) (cli : pflag.CommandLine) :
    (Execute pkg os cli).vp.pflags =
      [("timeout", "timeout"), ("server", "server"), ("debug", "debug"), ("config", "config")] ∧
    (Execute pkg os cli).vp.envPrefix = "hubble" ∧
    (Execute pkg os cli).vp.automaticEnvApplied = true ∧
    (Execute pkg os cli).vp.allowEmptyEnv = false ∧
    (Execute pkg os cli).rootCmd.pflags = pflag.Parse (New.flags pkg) cli := by
  obtain ⟨-, -, -, h4, h5, h6, h7⟩ := hookLoad_frame os (ParseFlags cli (New pkg os))
  have hv : (ParseFlags cli (New pkg os)).vp = (New pkg os).vp := rfl
  rw [hv, New_vp] at h4 h5 h6 h7
  rw [Execute_vp, Execute_rootCmd]
  exact ⟨h7, h4, h5, h6, rfl⟩

theorem Execute_written (pkg : Pkg) (os : OS) (cli : pflag.CommandLine) :
    (Execute pkg os cli).written =
      if (hookLoad os (ParseFlags cli (New pkg os))).2 = none ∧
          viper.GetBool (Execute pkg os cli).vp (Execute pkg os cli).rootCmd.pflags os "debug" = true
      then [(cobra.ErrOrStderr (Execute pkg os cli).rootCmd,
        "Using config file: " ++ viper.ConfigFileUsed (Execute pkg os cli).vp ++ "\n")]
      else [] := by
  rw [Execute_vp, Execute_rootCmd]
  unfold Execute
  rw [onInitialize_written]
  rfl

/-- The lookups after a load that failed are the lookups of a machine that has
no files. -/
theorem Get_without_files (pkg : Pkg) (os : OS) (cli : pflag.CommandLine)
    (hc : (Execute pkg os cli).vp.config = []) (key : String) :
    (Execute pkg os cli).Get os key =
      (Execute pkg os.withoutFiles cli).Get os.withoutFiles key := by
  obtain ⟨a1, a2, a3, a4, a5⟩ := Execute_fields pkg os cli
  obtain ⟨b1, b2, b3, b4, b5⟩ := Execute_fields pkg os.withoutFiles cli
  have hw : (Execute pkg os.withoutFiles cli).vp.config = [] := by
    rw [Execute_vp]
    rcases hookLoad_cases pkg os.withoutFiles cli with ⟨e, -, h, -⟩ | ⟨file, kv, -, -, h, -, -⟩
    · exact h
    · cases h
  unfold App.Get
  rw [a5, b5]
  exact Get_congr _ _ _ _ _ key (a1.trans b1.symm) (a2.trans b2.symm) (a3.trans b3.symm)
    (a4.trans b4.symm) (hc.trans hw.symm) rfl

/-- C6: when the load of the config file fails, because no candidate directory
has a config file and no path is given, or the path given does not exist, or
the file located does not parse, the hook still returns, writes nothing, adds
no value to the store, and every lookup gives what it gave before the hook
ran and what it gives on a machine without any file. -/
theorem C6_failed_load_adds_nothing (pkg : Pkg) (os : OS) (cli : pflag.CommandLine)
    (h : (configSetting pkg os cli = "" ∧
          ∀ d ∈ candidateDirs os, viper.searchInPath (newViper os) os d = "") ∨
        (configSetting pkg os cli ≠ "" ∧ os.ReadFile (configSetting pkg os cli) = none) ∨
        (∃ file, locatedFile pkg os cli = some file ∧ os.ReadFile file = some .malformed)) :
    (hookLoad os (ParseFlags cli (New pkg os))).2 ≠ none ∧
    (Execute pkg os cli).written = [] ∧
    (Execute pkg os cli).vp.config = [] ∧
    (∀ key, (Execute pkg os cli).Get os key = (ParseFlags cli (New pkg os)).Get os key) ∧
    (∀ key, (Execute pkg os cli).Get os key =
      (Execute pkg os.withoutFiles cli).Get os.withoutFiles key) := by
  have hfail : ∃ e, (hookLoad os (ParseFlags cli (New pkg os))).2 = some e ∧
      (hookLoad os (ParseFlags cli (New pkg os))).1.config = [] := by
    rcases hookLoad_cases pkg os cli with ⟨e, h1, h2, -⟩ | ⟨file, kv, -, hl, hr, -, -⟩
    · exact ⟨e, h1, h2⟩
    · exfalso
      rcases h with ⟨hc, hd⟩ | ⟨hc, hd⟩ | ⟨file', hl', hr'⟩
      · unfold locatedFile at hl
        rw [if_neg (not_not.mpr hc)] at hl
        unfold firstConfigFile at hl
        have hm := List.mem_of_find?_eq_some hl
        have hp := List.find?_some hl
        obtain ⟨d, hd1, hd2⟩ := List.mem_map.mp hm
        rw [hd d hd1] at hd2
        rw [← hd2] at hp
        exact absurd hp (by decide)
      · unfold locatedFile at hl
        rw [if_pos hc] at hl
        cases hl
        rw [hd] at hr
        cases hr
      · rw [hl] at hl'
        cases hl'
        rw [hr] at hr'
        cases hr'
  obtain ⟨e, he, hcfg⟩ := hfail
  have hc : (Execute pkg os cli).vp.config = [] := by rw [Execute_vp]; exact hcfg
  refine ⟨by rw [he]; exact Option.some_ne_none e, ?_, hc, ?_, Get_without_files pkg os cli hc⟩
  · rw [Execute_written, he]
    simp
  · intro key
    obtain ⟨a1, a2, a3, a4, a5⟩ := Execute_fields pkg os cli
    have hv : (ParseFlags cli (New pkg os)).vp = (New pkg os).vp := rfl
    have hf : (ParseFlags cli (New pkg os)).rootCmd.pflags = pflag.Parse (New.flags pkg) cli :=
      rfl
    unfold App.Get
    rw [a5, hf, hv]
    exact Get_congr _ _ _ _ _ key (by rw [a1, New_vp]) (by rw [a2, New_vp]) (by rw [a3, New_vp])
      (by rw [a4, New_vp]) (by rw [hc, New_vp]) rfl

/-- C6, witness: a `config.yaml` in the working directory that does not parse,
with `HUBBLE_DEBUG=true`: nothing is written and the store holds no file
value. -/
theorem C6_failed_load_adds_nothing_witness :
    locatedFile pkg0 brokenFile noFlags = some "/work/config.yaml" ∧
    brokenFile.ReadFile "/work/config.yaml" = some .malformed ∧
    (Execute pkg0 brokenFile noFlags).Get brokenFile "debug" = some (.str "true") ∧
    (Execute pkg0 brokenFile noFlags).written = [] ∧
    (Execute pkg0 brokenFile noFlags).vp.config = [] :=
  ⟨by decide, by decide, by decide,
    (C6_failed_load_adds_nothing pkg0 brokenFile noFlags
      (Or.inr (Or.inr ⟨"/work/config.yaml", by decide, by decide⟩))).2.1,
    (C6_failed_load_adds_nothing pkg0 brokenFile noFlags
      (Or.inr (Or.inr ⟨"/work/config.yaml", by decide, by decide⟩))).2.2.1⟩

theorem IsAbs_append (d y : String) (h : filepath.IsAbs d = true) :
    filepath.IsAbs (d ++ y) = true := by
  unfold filepath.IsAbs at h ⊢
  rw [String.data_append]
  rcases hd : d.data with _ | ⟨c, cs⟩
  · rw [hd] at h
    simp at h
  · rw [hd] at h
    simpa using h

theorem IsAbs_Join (d y : String) (h : filepath.IsAbs d = true) :
    filepath.IsAbs (filepath.Join d y) = true := by
  have hne : d ≠ "" := by
    intro hd
    rw [hd] at h
    exact absurd h (by decide)
  unfold filepath.Join
  rw [if_neg hne]
  split_ifs
  · exact IsAbs_Clean d h
  · rw [String.append_assoc]
    exact IsAbs_Clean _ (IsAbs_append d _ h)

theorem IsAbs_absPathify (os : OS) (path : String) (h : filepath.IsAbs os.Getwd = true) :
    filepath.IsAbs (viper.absPathify os path) = true := by
  have hne : os.Getwd ≠ "" := by
    intro hd
    rw [hd] at h
    exact absurd h (by decide)
  unfold viper.absPathify
  dsimp only
  split_ifs with h1 h2 h3 h4 h5 h6 <;>
    first
    | exact IsAbs_Clean _ (by assumption)
    | (unfold filepath.Abs
       simp only [*, if_false, Bool.false_eq_true]
       exact IsAbs_Clean _ (IsAbs_Join _ _ h))

theorem IsAbs_candidateDirs (os : OS) (h : filepath.IsAbs os.Getwd = true) :
    ∀ d ∈ candidateDirs os, filepath.IsAbs d = true := by
  intro d hd
  unfold candidateDirs at hd
  simp at hd
  rcases hd with rfl | ⟨a, -, rfl⟩ | ⟨a, -, rfl⟩
  · exact IsAbs_absPathify os _ h
  · exact IsAbs_absPathify os _ h
  · exact IsAbs_absPathify os _ h

theorem IsAbs_searchInPath (v : Viper) (os : OS) (d : String) (h : filepath.IsAbs d = true)
    (hne : viper.searchInPath v os d ≠ "") :
    filepath.IsAbs (viper.searchInPath v os d) = true := by
  unfold viper.searchInPath at hne ⊢
  split
  · exact IsAbs_Join _ _ h
  · split_ifs with hc
    · exact IsAbs_Join _ _ h
    · rename_i hnone
      rw [hnone, if_neg hc] at hne
      exact absurd rfl hne

theorem IsAbs_firstConfigFile (os : OS) (h : filepath.IsAbs os.Getwd = true) (file : String)
    (hf : firstConfigFile os (candidateDirs os) = some file) : filepath.IsAbs file = true := by
  unfold firstConfigFile at hf
  have hm := List.mem_of_find?_eq_some hf
  have hp := List.find?_some hf
  obtain ⟨d, hd1, hd2⟩ := List.mem_map.mp hm
  rw [← hd2]
  apply IsAbs_searchInPath _ _ _ (IsAbs_candidateDirs os h d hd1)
  rw [hd2]
  simpa using hp

/-- C7, as the claim states it, fails: with `--config rel.yaml` and a file
`rel.yaml` holding `debug: true`, the line written carries the path `rel.yaml`
as given, which is not an absolute path. -/
theorem C7_counterexample :
    (Execute pkg0 relativeFile relativeFlag).written =
      [(.Stderr, "Using config file: " ++ "rel.yaml" ++ "\n")] ∧
    viper.ConfigFileUsed (Execute pkg0 relativeFile relativeFlag).vp = "rel.yaml" ∧
    filepath.IsAbs "rel.yaml" = false := by
  decide

/-- C7 (amended): the hook writes the line reporting the config file exactly
when the load succeeded and the `debug` setting, looked up after the load, is
true; the line goes to the error stream of the root command, which is the
standard error, and nothing goes to the primary output; the path in the line
is the path of the file that was loaded: a path given by the `config` setting
verbatim (absolute only if given so), else the path found in the candidate
directories, which is absolute. -/
theorem C7_config_file_report (pkg : Pkg) (os : OS) (cli : pflag.CommandLine)
    (hwd : filepath.IsAbs os.Getwd = true) :
    (Execute pkg os cli).written =
      (if (hookLoad os (ParseFlags cli (New pkg os))).2 = none ∧
          viper.GetBool (Execute pkg os cli).vp (Execute pkg os cli).rootCmd.pflags os "debug" = true
       then [(cobra.ErrOrStderr (Execute pkg os cli).rootCmd,
          "Using config file: " ++ viper.ConfigFileUsed (Execute pkg os cli).vp ++ "\n")]
       else []) ∧
    cobra.ErrOrStderr (Execute pkg os cli).rootCmd = .Stderr ∧
    (∀ entry ∈ (Execute pkg os cli).written,
      entry.1 ≠ cobra.OutOrStdout (Execute pkg os cli).rootCmd) ∧
    ((hookLoad os (ParseFlags cli (New pkg os))).2 = none →
      locatedFile pkg os cli = some (viper.ConfigFileUsed (Execute pkg os cli).vp) ∧
      os.ReadFile (viper.ConfigFileUsed (Execute pkg os cli).vp) =
        some (.yaml (Execute pkg os cli).vp.config) ∧
      (configSetting pkg os cli ≠ "" →
        viper.ConfigFileUsed (Execute pkg os cli).vp = configSetting pkg os cli) ∧
      (configSetting pkg os cli = "" →
        filepath.IsAbs (viper.ConfigFileUsed (Execute pkg os cli).vp) = true)) := by
  have herr : cobra.ErrOrStderr (Execute pkg os cli).rootCmd = .Stderr := by
    rw [Execute_rootCmd]
    rfl
  have hout : cobra.OutOrStdout (Execute pkg os cli).rootCmd = .Stdout := by
    rw [Execute_rootCmd]
    rfl
  refine ⟨Execute_written pkg os cli, herr, ?_, ?_⟩
  · intro entry he
    rw [Execute_written] at he
    split_ifs at he
    · rw [List.mem_singleton] at he
      rw [he, herr, hout]
      intro hne
      cases hne
    · cases he
  · intro hok
    rcases hookLoad_cases pkg os cli with ⟨e, h1, -, -⟩ | ⟨file, kv, -, hl, hr, hk, hf⟩
    · rw [hok] at h1
      cases h1
    · unfold viper.ConfigFileUsed
      rw [Execute_vp, hf, hk]
      refine ⟨hl, hr, ?_, ?_⟩
      · intro hc
        unfold locatedFile at hl
        rw [if_pos hc] at hl
        cases hl
        rfl
      · intro hc
        unfold locatedFile at hl
        rw [if_neg (not_not.mpr hc)] at hl
        exact IsAbs_firstConfigFile os hwd file hl

/-- C7, witness: a `config.yaml` under `~/.hubble` that holds `debug: true`: the
line is written to the standard error and carries the absolute path. -/
theorem C7_config_file_report_witness :
    filepath.IsAbs homeDebugFile.Getwd = true ∧
    (Execute pkg0 homeDebugFile noFlags).written =
      [(.Stderr, "Using config file: /home/u/.hubble/config.yaml\n")] ∧
    cobra.ErrOrStderr (Execute pkg0 homeDebugFile noFlags).rootCmd = .Stderr :=
  ⟨by decide, by decide, (C7_config_file_report pkg0 homeDebugFile noFlags (by decide)).2.1⟩

/-- C8, as the claim states it, fails: for the name `hubble` and the version
`1.2.3` the template renders `hubble v1.2.3` followed by a newline, and for the
empty name `v1.2.3` followed by a newline. -/
theorem C8_counterexample :
    versionTemplate "hubble" "1.2.3" ≠ "hubble v1.2.3" ∧
    versionTemplate "" "1.2.3" ≠ "v1.2.3" ∧
    versionTemplate "hubble" "1.2.3" = "hubble v1.2.3\n" ∧
    versionTemplate "" "1.2.3" = "v1.2.3\n" := by
  decide

/-- C8 (amended): the version template `New` installs renders, for every name
and version, as the name, one space, the letter `v`, the version and a newline
when the name is not empty, and as the letter `v`, the version and a newline,
with no name segment and no leading space, when the name is empty. -/
theorem C8_version_template (pkg : Pkg) (os : OS) (name version : String) :
    (New pkg os).rootCmd.versionTemplate = some versionTemplate ∧
    (name ≠ "" → versionTemplate name version = name ++ " v" ++ version ++ "\n") ∧
    versionTemplate "" version = "v" ++ version ++ "\n" := by
  refine ⟨rfl, ?_, ?_⟩
  · intro h
    unfold versionTemplate template.With template.printf
    rw [if_neg h]
    apply String.ext
    simp [String.data_append]
  · unfold versionTemplate template.With template.printf
    apply String.ext
    simp [String.data_append]

/-- C8, witness: the name `hubble` and the version `1.2.3`. -/
theorem C8_version_template_witness :
    ("hubble" : String) ≠ "" ∧
    versionTemplate "hubble" "1.2.3" = "hubble" ++ " v" ++ "1.2.3" ++ "\n" ∧
    cobra.Name (New pkg0 bare).rootCmd = "hubble" :=
  ⟨by decide, (C8_version_template pkg0 bare "hubble" "1.2.3").2.1 (by decide), by decide⟩

/-- C9, as the claim states it, fails: not every child of the root command is
constructed with the Config Store; `completion.New()` and `version.New()` take
no argument. -/
theorem C9_counterexample :
    ¬ (∀ c ∈ (New pkg0 bare).rootCmd.commands, Arg.vp ∈ c.args) ∧
    (New pkg0 bare).rootCmd.commands.head? = some ⟨"completion", []⟩ := by
  decide

/-- C9 (amended): the root command `New` returns has exactly five immediate
children, completion, observe, peer, status and version, each registered once;
observe, peer and status are constructed with the pointer to the one Config
Store the persistent flags of the root are bound into, completion and version
are constructed without arguments. -/
theorem C9_children (pkg : Pkg) (os : OS) :
    (New pkg os).rootCmd.commands.map Child.pkg =
      ["completion", "observe", "peer", "status", "version"] ∧
    ((New pkg os).rootCmd.commands.map Child.pkg).Nodup ∧
    (New pkg os).rootCmd.commands.length = 5 ∧
    ((New pkg os).rootCmd.commands.filter fun c => decide (Arg.vp ∈ c.args)).map Child.pkg =
      ["observe", "peer", "status"] ∧
    ((New pkg os).rootCmd.commands.filter fun c => decide (c.args = [])).map Child.pkg =
      ["completion", "version"] ∧
    (New pkg os).vp = viper.BindPFlags (newViper os) (New pkg os).rootCmd.pflags ∧
    (New pkg os).vp.pflags.map Prod.fst = ["timeout", "server", "debug", "config"] := by
  have hc : (New pkg os).rootCmd.commands =
      [⟨"completion", []⟩, ⟨"observe", [.vp]⟩, ⟨"peer", [.vp]⟩, ⟨"status", [.vp]⟩,
        ⟨"version", []⟩] := rfl
  rw [hc, New_vp]
  refine ⟨by decide, by decide, by decide, by decide, by decide, ?_, rfl⟩
  rw [← New_vp pkg os]
  rfl

/-- C10, the code at the failing input: the help text of `--config` names
`$HOME/.hubble.yaml` as the default config file, yet with that file present, no
`--config` flag and no `HUBBLE_CONFIG`, the hook locates and loads nothing and
`server` keeps its built-in default. -/
theorem C10_home_dotfile_not_loaded :
    (pflag.Lookup (New pkg0 homeDotfile).rootCmd.pflags "config").map (fun f => f.Usage) =
      some "Config file (default is $HOME/.hubble.yaml)" ∧
    configSetting pkg0 homeDotfile noFlags = "" ∧
    homeDotfile.UserHomeDir = some "/home/u" ∧
    homeDotfile.ReadFile (filepath.Join "/home/u" ".hubble.yaml") =
      some (.yaml [("server", .str "from-dotfile")]) ∧
    candidateDirs homeDotfile = ["/work", "/home/u/.config/hubble", "/home/u/.hubble"] ∧
    locatedFile pkg0 homeDotfile noFlags = none ∧
    (hookLoad homeDotfile (ParseFlags noFlags (New pkg0 homeDotfile))).2 =
      some .ConfigFileNotFound ∧
    (Execute pkg0 homeDotfile noFlags).vp.config = [] ∧
    (Execute pkg0 homeDotfile noFlags).Get homeDotfile "server" =
      some (.str "unix:///var/run/cilium/hubble.sock") := by
  decide

end Hubble
